import Mathlib

/-!
# gomqtt: the SUBSCRIBE codec and the identified-packet codec

A shallow embedding of `src/subscribe.go` (package `message`) and of the
identified-packet codec exercised by `src/packet/identified_test.go`.

Conventions of the embedding.

* A Go `[]byte` is a `List Byte` with `Byte = Fin 256`; a `uint16` is a
  `Fin 65536`; a Go `int` that only ever counts bytes is a `Nat`, and the loop
  counter `remlen`, which can go negative, is an `Int`.
* A Go method returning `(int, error)` while writing through its receiver or
  through a slice becomes a function into `Res σ`, where `σ` is the state that
  was written (the message for `Decode`, the buffer for `Encode`).
  A run-time fault (index or slice bounds out of range) is the outcome
  `Res.outOfRange`.
* `dst[total:]` handed to a helper that writes into it is modelled by letting
  the helper return the rewritten sub-slice, which the caller splices back
  into `dst` after the first `total` bytes.
* The fixed header (`header.len`, `header.encode`, `header.decode`) and the
  length-prefixed byte helpers (`readLPBytes`, `writeLPBytes`) are not part of
  `src/`; they are modelled from the specification and marked as such.
* The stream decoder (`Read`), the keepalive tracker and the client engine
  are known from their tests only (`stream_test.go`, `client/helpers_test.go`,
  `client_test.go`); they are modelled from sections 4.B, 4.E and 4.F of the
  specification, with the clock reading and the packet decoders as explicit
  arguments, and marked as such.
-/

namespace Gomqtt

/-- A byte of a Go `[]byte`. -/
abbrev Byte := Fin 256

/-- Truncating conversion `byte(n)`. -/
def toByte (n : Nat) : Byte := ⟨n % 256, Nat.mod_lt _ (by decide)⟩

/-- Modelled from the spec: the error kinds of section 7 that the codec can
return (`fmt.Errorf` values in the source carry a message only). -/
inductive Error where
  | bufferTooSmall
  | insufficientBytes
  | malformed
  | overflow
  deriving DecidableEq, Repr

/-- Outcome of a Go call returning `(int, error)`; `st` is the state written by
the call. `outOfRange` is a run-time fault (index or slice bounds out of
range); `outOfFuel` is reported by a bounded loop that used up its bound. -/
inductive Res (σ : Type) where
  | ret (n : Nat) (err : Option Error) (st : σ)
  | outOfRange
  | outOfFuel
  deriving DecidableEq, Repr

/-- Modelled from the spec: the fourteen control packet types of section 3. -/
inductive MessageType where
  | CONNECT | CONNACK | PUBLISH | PUBACK | PUBREC | PUBREL | PUBCOMP
  | SUBSCRIBE | SUBACK | UNSUBSCRIBE | UNSUBACK | PINGREQ | PINGRESP | DISCONNECT
  deriving DecidableEq, Repr

/-- Modelled from the spec: the MQTT 3.1.1 type code carried in the high four
bits of the first byte (section 6: byte-exact per the OASIS specification). -/
def MessageType.code : MessageType → Nat
  | .CONNECT => 1 | .CONNACK => 2 | .PUBLISH => 3 | .PUBACK => 4
  | .PUBREC => 5 | .PUBREL => 6 | .PUBCOMP => 7 | .SUBSCRIBE => 8
  | .SUBACK => 9 | .UNSUBSCRIBE => 10 | .UNSUBACK => 11 | .PINGREQ => 12
  | .PINGRESP => 13 | .DISCONNECT => 14

/-- Modelled from the spec: the fixed flags of a type; PUBREL, SUBSCRIBE and
UNSUBSCRIBE require `0b0010`, every other type has `0`. -/
def MessageType.defaultFlags : MessageType → Nat
  | .PUBREL => 2 | .SUBSCRIBE => 2 | .UNSUBSCRIBE => 2
  | _ => 0

/-- Modelled from the spec: the largest remaining length, 268,435,455. -/
def maxRemainingLength : Nat := 268435455

/-- Modelled from the spec: the number of bytes of the fixed header for a
remaining length `rl`: one type byte plus the 1 to 4 bytes of the base-128
remaining-length field. Stands for `header.len` and `headerLen`. -/
def headerLen (rl : Nat) : Nat :=
  if rl ≤ 127 then 2
  else if rl ≤ 16383 then 3
  else if rl ≤ 2097151 then 4
  else 5

/-- Modelled from the spec: the remaining-length encoder; base 128, least
significant group first, high bit set on every byte but the last. -/
def remLenBytes (rl : Nat) : List Byte :=
  if rl ≤ 127 then [toByte rl]
  else if rl ≤ 16383 then [toByte (rl % 128 + 128), toByte (rl / 128)]
  else if rl ≤ 2097151 then
    [toByte (rl % 128 + 128), toByte (rl / 128 % 128 + 128), toByte (rl / 16384)]
  else
    [toByte (rl % 128 + 128), toByte (rl / 128 % 128 + 128),
     toByte (rl / 16384 % 128 + 128), toByte (rl / 2097152)]

/-- Modelled from the spec: the remaining-length decoder. It stops on a byte
with a clear high bit and returns the value with the number of bytes consumed;
it fails with `overflow` when four bytes are consumed without termination and
with `insufficientBytes` when the input ends first. -/
def decodeRemLen : List Byte → Except Error (Nat × Nat)
  | [] => .error .insufficientBytes
  | b0 :: r0 =>
    if b0.val < 128 then .ok (b0.val, 1) else
    match r0 with
    | [] => .error .insufficientBytes
    | b1 :: r1 =>
      if b1.val < 128 then .ok (b0.val % 128 + 128 * b1.val, 2) else
      match r1 with
      | [] => .error .insufficientBytes
      | b2 :: r2 =>
        if b2.val < 128 then
          .ok (b0.val % 128 + 128 * (b1.val % 128) + 16384 * b2.val, 3)
        else
        match r2 with
        | [] => .error .insufficientBytes
        | b3 :: _ =>
          if b3.val < 128 then
            .ok (b0.val % 128 + 128 * (b1.val % 128) + 16384 * (b2.val % 128)
                  + 2097152 * b3.val, 4)
          else .error .overflow

/-- Modelled from the spec: fixed-header encoder (`header.encode`,
`headerEncode`). Writes the type code in the high four bits, the fixed flags
of the type joined with the caller's flags in the low four bits, then the
remaining length. Fails without writing when `rl` exceeds the largest
remaining length or when `dst` is shorter than the header. Returns the byte
count, the error and the buffer. -/
def headerEncode (dst : List Byte) (flags : Nat) (rl : Nat) (t : MessageType) :
    Nat × Option Error × List Byte :=
  if rl > maxRemainingLength then (0, some .malformed, dst)
  else if dst.length < headerLen rl then (0, some .bufferTooSmall, dst)
  else
    (headerLen rl, none,
      toByte (t.code * 16 + (t.defaultFlags ||| flags) % 16) :: remLenBytes rl
        ++ dst.drop (headerLen rl))

/-- Modelled from the spec: fixed-header decoder (`header.decode`,
`headerDecode`). Returns the header length, the flags, the remaining length
and the error. The type code must be the expected one and, except for
PUBLISH, the flags must be the fixed flags of the type (malformed otherwise);
the remaining length is decoded by `decodeRemLen`; a remaining length larger
than what is left of the buffer is an insufficient-bytes error reported with
the header length as byte count (`TestIdentifiedDecodeError2`). -/
def headerDecode (src : List Byte) (t : MessageType) : Nat × Nat × Nat × Option Error :=
  match src with
  | [] => (0, 0, 0, some .insufficientBytes)
  | b0 :: rest =>
    if b0.val / 16 ≠ t.code then (1, 0, 0, some .malformed)
    else if t ≠ .PUBLISH ∧ b0.val % 16 ≠ t.defaultFlags then (1, 0, 0, some .malformed)
    else
      match decodeRemLen rest with
      | .error e => (1, 0, 0, some e)
      | .ok (rl, m) =>
        if rl > rest.length - m then (1 + m, 0, 0, some .insufficientBytes)
        else (1 + m, b0.val % 16, rl, none)

/-- Go's `binary.BigEndian.Uint16`: faults when `b` has fewer than two bytes. -/
def Uint16 : List Byte → Option (Fin 65536)
  | b0 :: b1 :: _ => some ⟨b0.val * 256 + b1.val, by omega⟩
  | _ => none

/-- Go's `binary.BigEndian.PutUint16`: faults when `b` has fewer than two
bytes, otherwise overwrites the first two. -/
def PutUint16 : List Byte → Fin 65536 → Option (List Byte)
  | _ :: _ :: r, v => some (toByte (v.val / 256) :: toByte v.val :: r)
  | _, _ => none

/-- Modelled from the spec: length-prefixed bytes writer (`writeLPBytes`):
2-byte big-endian length followed by the bytes; at most 65535 bytes. Fails
without writing when `b` is too long or `dst` too short. -/
def writeLPBytes (dst : List Byte) (b : List Byte) : Nat × Option Error × List Byte :=
  if b.length > 65535 then (0, some .malformed, dst)
  else if dst.length < 2 + b.length then (0, some .bufferTooSmall, dst)
  else
    (2 + b.length, none,
      toByte (b.length / 256) :: toByte b.length :: b ++ dst.drop (2 + b.length))

/-- Modelled from the spec: length-prefixed bytes reader (`readLPBytes`):
returns the bytes, the count consumed and the error; insufficient bytes when
the buffer ends inside the length or inside the bytes. -/
def readLPBytes (src : List Byte) : List Byte × Nat × Option Error :=
  match src with
  | b0 :: b1 :: r =>
    let n := b0.val * 256 + b1.val
    if r.length < n then ([], 2, some .insufficientBytes)
    else (r.take n, 2 + n, none)
  | _ => ([], 0, some .insufficientBytes)

/-- A single subscription in a `SubscribeMessage`. -/
structure Subscription where
  Topic : List Byte
  QoS : Byte
  deriving DecidableEq, Repr

/-- Modelled from the spec: the embedded `header` struct, whose declaration is
not part of `src/`. It holds the two fields `subscribe.go` uses: the message
type `Type` set by the constructor (named `Typ` here, `Type` being reserved)
and the 16-bit packet ID. -/
structure header where
  Typ : MessageType
  PacketId : Fin 65536
  deriving DecidableEq, Repr

/-- Modelled from the spec: method `header.len`, not part of `src/`; the
fixed-header length `headerLen`. -/
def header.len (_h : header) (rl : Nat) : Nat := headerLen rl

/-- Modelled from the spec: method `header.encode`, not part of `src/`; the
fixed-header encoder `headerEncode` at the header's type. -/
def header.encode (h : header) (dst : List Byte) (flags : Nat) (rl : Nat) :
    Nat × Option Error × List Byte :=
  headerEncode dst flags rl h.Typ

/-- Modelled from the spec: method `header.decode`, not part of `src/`; the
fixed-header decoder `headerDecode` at the header's type. -/
def header.decode (h : header) (src : List Byte) : Nat × Nat × Nat × Option Error :=
  headerDecode src h.Typ

/-- The SUBSCRIBE message: the embedded header and the subscriptions. -/
structure SubscribeMessage extends header where
  Subscriptions : List Subscription
  deriving DecidableEq, Repr

/-- Constructor `NewSubscribeMessage`: the zero message with type SUBSCRIBE. -/
def NewSubscribeMessage : SubscribeMessage :=
  { Typ := .SUBSCRIBE, PacketId := 0, Subscriptions := [] }

/-- Method `msglen`: 2 for the packet ID, then `2 + len(Topic) + 1` for each
subscription. -/
def SubscribeMessage.msglen (m : SubscribeMessage) : Nat :=
  m.Subscriptions.foldl (fun total t => total + (2 + t.Topic.length + 1)) 2

/-- Method `Len`. -/
def SubscribeMessage.Len (m : SubscribeMessage) : Nat :=
  let ml := m.msglen
  m.toheader.len ml + ml

/-- The `for remlen > 0` loop of `Decode` together with the code after it.
`fuel` bounds the number of iterations. -/
def decodeLoop : Nat → List Byte → SubscribeMessage → Nat → Int → Res SubscribeMessage
  | fuel, src, m, total, remlen =>
    if remlen > 0 then
      match fuel with
      | 0 => .outOfFuel
      | fuel + 1 =>
        if total > src.length then .outOfRange else
        match readLPBytes (src.drop total) with
        | (t, n, err) =>
          let total := total + n
          if err.isSome then .ret total err m else
          match src[total]? with
          | none => .outOfRange
          | some q =>
            decodeLoop fuel src
              { m with Subscriptions := m.Subscriptions ++ [⟨t, q⟩] }
              (total + 1) (remlen - n - 1)
    else if m.Subscriptions.length = 0 then .ret 0 (some .malformed) m
    else .ret total none m

/-- Method `Decode`. The loop is run with `remlen` as its bound: every
iteration that continues lowers `remlen` by at least 3. -/
def SubscribeMessage.Decode (m : SubscribeMessage) (src : List Byte) : Res SubscribeMessage :=
  let total := 0
  match m.toheader.decode (src.drop total) with
  | (hl, _, rl, err) =>
    let total := total + hl
    if err.isSome then .ret total err m else
    if total > src.length then .outOfRange else
    match Uint16 (src.drop total) with
    | none => .outOfRange
    | some pid =>
      let m := { m with PacketId := pid }
      let total := total + 2
      let remlen : Int := (rl : Int) - ((total : Int) - (hl : Int))
      decodeLoop remlen.toNat src m total remlen

/-- The `for _, t := range this.Subscriptions` loop of `Encode` together with
the final return. -/
def encodeLoop : List Subscription → List Byte → Nat → Res (List Byte)
  | [], dst, total => .ret total none dst
  | t :: ts, dst, total =>
    if total > dst.length then .outOfRange else
    match writeLPBytes (dst.drop total) t.Topic with
    | (n, err, sub) =>
      let dst := dst.take total ++ sub
      let total := total + n
      if err.isSome then .ret total err dst else
      if total < dst.length then encodeLoop ts (dst.set total t.QoS) (total + 1)
      else .outOfRange

/-- Method `Encode`. -/
def SubscribeMessage.Encode (m : SubscribeMessage) (dst : List Byte) : Res (List Byte) :=
  let l := m.Len
  if dst.length < l then .ret 0 (some .bufferTooSmall) dst else
  let total := 0
  match m.toheader.encode (dst.drop total) 0 m.msglen with
  | (n, err, sub) =>
    let dst := dst.take total ++ sub
    let total := total + n
    if err.isSome then .ret total err dst else
    if total > dst.length then .outOfRange else
    match PutUint16 (dst.drop total) m.PacketId with
    | none => .outOfRange
    | some sub =>
      let dst := dst.take total ++ sub
      let total := total + 2
      encodeLoop m.Subscriptions dst total

/-- A SUBSCRIBE message as client code builds it: `NewSubscribeMessage()`
followed by assignments to `PacketId` and `Subscriptions`. -/
def subscribeOf (pid : Fin 65536) (subs : List Subscription) : SubscribeMessage :=
  { NewSubscribeMessage with PacketId := pid, Subscriptions := subs }

/-- Modelled from the spec: the identified packet types (PUBACK, PUBREC,
PUBREL, PUBCOMP, UNSUBACK), whose payload is a 2-byte packet ID. -/
def identifiedTypes : List MessageType :=
  [.PUBACK, .PUBREC, .PUBREL, .PUBCOMP, .UNSUBACK]

/-- Modelled from the spec: `identifiedLen`, the size of an identified packet:
the fixed header for remaining length 2 plus the 2-byte packet ID. The
function is not part of `src/`; `identified_test.go` only calls it. -/
def identifiedLen : Nat := headerLen 2 + 2

/-- Modelled from the spec: `identifiedDecode`, which is not part of `src/`
(`identified_test.go` only calls it). Decodes the fixed header for type `t`,
requires remaining length 2, reads the packet ID and rejects ID 0. Returns the
byte count, the ID (0 on error) and the error; the byte count on error is the
number of bytes read so far, as the tests expect. -/
def identifiedDecode (src : List Byte) (t : MessageType) : Nat × Fin 65536 × Option Error :=
  match headerDecode src t with
  | (hl, _, rl, err) =>
    if err.isSome then (hl, 0, err)
    else if rl ≠ 2 then (hl, 0, some .malformed)
    else
      match Uint16 (src.drop hl) with
      | none => (hl, 0, some .insufficientBytes)
      | some pid =>
        if pid = 0 then (hl + 2, 0, some .malformed)
        else (hl + 2, pid, none)

/-- Modelled from the spec: `identifiedEncode`, which is not part of `src/`
(`identified_test.go` only calls it). Rejects ID 0, fails with
buffer-too-small when `dst` is shorter than `identifiedLen()`, both with byte
count 0 as the tests expect, then writes the fixed header for remaining length
2 and the packet ID big-endian. Returns the byte count, the error and the
buffer. -/
def identifiedEncode (dst : List Byte) (id : Fin 65536) (t : MessageType) :
    Nat × Option Error × List Byte :=
  if id = 0 then (0, some .malformed, dst)
  else if dst.length < identifiedLen then (0, some .bufferTooSmall, dst)
  else
    match headerEncode dst 0 2 t with
    | (n, err, dst1) =>
      if err.isSome then (n, err, dst1) else
      match PutUint16 (dst1.drop n) id with
      | none => (n, some .bufferTooSmall, dst1)
      | some sub => (n + 2, none, dst1.take n ++ sub)

/-! ## Wire layout as the specification words it -/

/-- The subscription entries on the wire, as the specification states them:
for each subscription in list order the topic length as 2 bytes big-endian,
the topic bytes and one QoS byte. -/
def subsWire : List Subscription → List Byte
  | [] => []
  | t :: ts =>
    toByte (t.Topic.length / 256) :: toByte t.Topic.length :: t.Topic ++ t.QoS :: subsWire ts

/-- The SUBSCRIBE payload on the wire, as the specification states it: the
packet ID as 2 bytes big-endian followed by the subscription entries. -/
def payloadWire (m : SubscribeMessage) : List Byte :=
  toByte (m.PacketId.val / 256) :: toByte m.PacketId.val :: subsWire m.Subscriptions

/-- The fixed header bytes written for a message of type `t` and remaining
length `rl` when the caller passes no extra flags. -/
def headerWire (t : MessageType) (rl : Nat) : List Byte :=
  toByte (t.code * 16 + (t.defaultFlags ||| 0) % 16) :: remLenBytes rl

/-! ## Stream decoder (section 4.B of the specification) -/

/-- Modelled from the spec: the errors `Decoder.Read` can return. `Read` is not
part of `src/`; `stream_test.go` only calls it. -/
inductive ReadError where
  | eof
  | unexpectedEOF
  | detectionOverflow
  | invalidType
  | decode (e : Error)
  deriving DecidableEq, Repr

/-- Modelled from the spec: the dispatch by type tag; the codes 0 and 15 name
no packet type. -/
def MessageType.ofCode : Nat → Option MessageType
  | 1 => some .CONNECT | 2 => some .CONNACK | 3 => some .PUBLISH | 4 => some .PUBACK
  | 5 => some .PUBREC | 6 => some .PUBREL | 7 => some .PUBCOMP | 8 => some .SUBSCRIBE
  | 9 => some .SUBACK | 10 => some .UNSUBSCRIBE | 11 => some .UNSUBACK | 12 => some .PINGREQ
  | 13 => some .PINGRESP | 14 => some .DISCONNECT
  | _ => none

/-- Modelled from the spec: `Decoder.Read`, which is not part of `src/`. The
input is what the upstream will deliver before end of file; the result comes
with the input left over. The fixed header is peeked (one type byte, then up
to four remaining-length bytes); a continuation that extends past four bytes
is `detectionOverflow`; an input that ends inside the header or before
`headerLen + remainingLength` bytes is `unexpectedEOF`; otherwise exactly
those bytes are read, the type tag is dispatched and the decoder of that type,
the parameter `decode`, is called. -/
def Read {π : Type} (decode : MessageType → List Byte → Except Error π)
    (input : List Byte) : Except ReadError π × List Byte :=
  match input with
  | [] => (.error .eof, input)
  | b0 :: rest =>
    match decodeRemLen rest with
    | .error .overflow => (.error .detectionOverflow, input)
    | .error _ => (.error .unexpectedEOF, input)
    | .ok (rl, m) =>
      let n := 1 + m + rl
      if input.length < n then (.error .unexpectedEOF, input)
      else
        match MessageType.ofCode (b0.val / 16) with
        | none => (.error .invalidType, input)
        | some t =>
          match decode t (input.take n) with
          | .error e => (.error (.decode e), input.drop n)
          | .ok p => (.ok p, input.drop n)

/-! ## Keepalive tracker (section 4.E of the specification) -/

/-- Modelled from the spec: the keepalive tracker, which is not part of `src/`
(`helpers_test.go` only calls it). Times and durations are integers in one
unit; the current time is an explicit argument of every operation that reads
the clock. -/
structure Tracker where
  duration : Int
  lastSent : Int
  pendingPing : Bool
  deriving DecidableEq, Repr

/-- Modelled from the spec: `newTracker(D)` at time `now`; the tracker starts
with `lastSent = now` and no ping outstanding. -/
def newTracker (d : Int) (now : Int) : Tracker :=
  { duration := d, lastSent := now, pendingPing := false }

/-- Modelled from the spec: `reset()` sets `lastSent = now` and
`pendingPing = false`. -/
def Tracker.reset (t : Tracker) (now : Int) : Tracker :=
  { t with lastSent := now, pendingPing := false }

/-- Modelled from the spec: `window() = D - (now - lastSent)`; may be
negative. -/
def Tracker.window (t : Tracker) (now : Int) : Int :=
  t.duration - (now - t.lastSent)

/-- Modelled from the spec: `ping()` sets `pendingPing = true`. -/
def Tracker.ping (t : Tracker) : Tracker :=
  { t with pendingPing := true }

/-- Modelled from the spec: `pong()` sets `pendingPing = false` and resets. -/
def Tracker.pong (t : Tracker) (now : Int) : Tracker :=
  Tracker.reset { t with pendingPing := false } now

/-- Modelled from the spec: `pending()` reports `pendingPing`. -/
def Tracker.pending (t : Tracker) : Bool := t.pendingPing

/-! ## Client engine (section 4.F of the specification) -/

/-- Modelled from the spec: the client states of section 3. -/
inductive ClientState where
  | initial | connecting | connected | disconnecting | disconnected
  deriving DecidableEq, Repr

/-- Modelled from the spec: the errors the public API returns. -/
inductive ClientError where
  | alreadyConnecting
  | notConnected
  | invalidOption
  | idsExhausted
  deriving DecidableEq, Repr

/-- Modelled from the spec: the control packets as the engine sees them, with
the fields it inspects. -/
inductive Packet where
  | connect
  | disconnect
  | publish (id : Nat) (topic payload : List Byte) (qos : Nat) (retain dup : Bool)
  | puback (id : Nat)
  | pubrec (id : Nat)
  | pubrel (id : Nat)
  | pubcomp (id : Nat)
  | subscribe (id : Nat) (subs : List (List Byte × Nat))
  | unsubscribe (id : Nat) (topics : List (List Byte))
  deriving DecidableEq, Repr

/-- Modelled from the spec: what the engine reports to the outside: a message
handed to the user callback, a terminal error handed to it, and the resolution
of a future. -/
inductive Event where
  | delivered (topic payload : List Byte) (qos : Nat)
  | connectionDenied
  | connectCompleted (sessionPresent : Bool) (returnCode : Nat)
  | futureCompleted (id : Nat) (granted : List Nat)
  | futureCancelled (id : Nat)
  deriving DecidableEq, Repr

/-- Modelled from the spec: the future an API call hands back: the connect
future, a future pending under a packet ID, or one completed on the spot. -/
inductive FutureHandle where
  | connect
  | pending (id : Nat)
  | done
  deriving DecidableEq, Repr

/-- Modelled from the spec: the options `Connect` validates. -/
structure Options where
  clientID : List Byte
  cleanSession : Bool
  keepAliveParses : Bool
  deriving DecidableEq, Repr

/-- Modelled from the spec: the client engine, which is not part of `src/`
(`client_test.go` only calls it): its state, the connect future, the future
registry (packet ID to pending future), the two directions of the session
store in insertion order, the packet-ID counter, the packets written to the
transport and the events reported, both in order. -/
structure Client where
  state : ClientState
  connectPending : Bool
  futures : List Nat
  outgoing : List (Nat × Packet)
  incoming : List (Nat × Packet)
  counter : Nat
  sent : List Packet
  events : List Event
  deriving DecidableEq, Repr

/-- Modelled from the spec: what a public API call returns: the future, the
error and the client after the call. -/
structure ApiResult where
  future : Option FutureHandle
  err : Option ClientError
  client : Client
  deriving DecidableEq, Repr

/-- Modelled from the spec: `New()`, a client in the initial state with empty
registry and store and the packet-ID counter at 1. -/
def Client.New : Client :=
  { state := .initial, connectPending := false, futures := [], outgoing := [],
    incoming := [], counter := 1, sent := [], events := [] }

/-- Modelled from the spec: the successor of a packet ID, wrapping after 65535
back to 1. -/
def succID (id : Nat) : Nat := if id ≥ 65535 then 1 else id + 1

/-- Modelled from the spec: the search of `nextID` over at most `fuel`
candidates, skipping IDs present in either direction of the session store. -/
def findID (used : Nat → Bool) : Nat → Nat → Option Nat
  | 0, _ => none
  | fuel + 1, cand => if used cand then findID used fuel (succID cand) else some cand

/-- Modelled from the spec: `nextID()` of the session store: the first free ID
from the counter on, with the counter advanced past it; none when all 65535
IDs are in use. -/
def Client.nextID (c : Client) : Option (Nat × Client) :=
  match findID (fun id => (c.outgoing.lookup id).isSome || (c.incoming.lookup id).isSome)
      65535 c.counter with
  | none => none
  | some id => some (id, { c with counter := succID id })

/-- Modelled from the spec: cancelling every future of the registry. -/
def Client.cancelAll (c : Client) : Client :=
  { c with futures := [], connectPending := false,
           events := c.events ++ c.futures.map Event.futureCancelled }

/-- Modelled from the spec: `Connect`. Returns already-connecting unless the
state is initial or disconnected; then validates the options (keepalive
parseable, client ID non-empty when clean-session is false), moves to
connecting, sends CONNECT and registers the connect future. Dialling the
transport is outside the model. -/
def Client.Connect (c : Client) (opts : Options) : ApiResult :=
  if c.state ≠ .initial ∧ c.state ≠ .disconnected then ⟨none, some .alreadyConnecting, c⟩
  else if ¬ opts.keepAliveParses ∨ (opts.cleanSession = false ∧ opts.clientID = []) then
    ⟨none, some .invalidOption, c⟩
  else
    ⟨some .connect, none,
      { c with state := .connecting, connectPending := true, sent := c.sent ++ [.connect] }⟩

/-- Modelled from the spec: the common path of `Publish` at QoS 1 or 2,
`Subscribe` and `Unsubscribe`: allocate an ID, save the outgoing packet,
register a future under the ID and send the packet. -/
def Client.sendIdentified (c : Client) (mk : Nat → Packet) : ApiResult :=
  match c.nextID with
  | none => ⟨none, some .idsExhausted, c⟩
  | some (id, c1) =>
    ⟨some (.pending id), none,
      { c1 with outgoing := c1.outgoing ++ [(id, mk id)],
                futures := c1.futures ++ [id],
                sent := c1.sent ++ [mk id] }⟩

/-- Modelled from the spec: `Publish`. Requires the state connected and
returns not-connected otherwise. At QoS 0 the PUBLISH is sent and the future
completed on the spot; at QoS 1 or 2 it goes through `sendIdentified`. -/
def Client.Publish (c : Client) (topic payload : List Byte) (qos : Nat) (retain : Bool) :
    ApiResult :=
  if c.state ≠ .connected then ⟨none, some .notConnected, c⟩
  else if qos = 0 then
    ⟨some .done, none, { c with sent := c.sent ++ [.publish 0 topic payload 0 retain false] }⟩
  else c.sendIdentified (fun id => .publish id topic payload qos retain false)

/-- Modelled from the spec: `Subscribe` and `SubscribeMultiple`. Requires the
state connected and returns not-connected otherwise. -/
def Client.Subscribe (c : Client) (subs : List (List Byte × Nat)) : ApiResult :=
  if c.state ≠ .connected then ⟨none, some .notConnected, c⟩
  else c.sendIdentified (fun id => .subscribe id subs)

/-- Modelled from the spec: `Unsubscribe`, symmetric with `Subscribe`. -/
def Client.Unsubscribe (c : Client) (topics : List (List Byte)) : ApiResult :=
  if c.state ≠ .connected then ⟨none, some .notConnected, c⟩
  else c.sendIdentified (fun id => .unsubscribe id topics)

/-- Modelled from the spec: `Disconnect` once the wait for the registry to
drain is over: sends DISCONNECT, cancels the remaining futures, keeps the
session store and moves to disconnected. The specification gives the call no
guard; the one refusal modelled is the one `TestClientNotConnected` asserts,
not-connected on a client fresh from `New()`. -/
def Client.Disconnect (c : Client) : Option ClientError × Client :=
  if c.state = .initial then (some .notConnected, c)
  else
    (none, { Client.cancelAll { c with sent := c.sent ++ [.disconnect] } with
               state := .disconnected })

/-- Modelled from the spec: `Close`: no DISCONNECT is sent, every future is
cancelled and the state becomes disconnected. The specification gives the call
no guard; the one refusal modelled is the one `TestClientNotConnected`
asserts, not-connected on a client fresh from `New()`. -/
def Client.Close (c : Client) : Option ClientError × Client :=
  if c.state = .initial then (some .notConnected, c)
  else (none, { Client.cancelAll c with state := .disconnected })

/-- Modelled from the spec: the replay on an accepted CONNACK: every outgoing
entry in insertion order is sent again, a PUBLISH with the dup flag set, and a
future is registered for each ID that lacks one. -/
def Client.replay (c : Client) : Client :=
  c.outgoing.foldl
    (fun acc e =>
      let pkt : Packet :=
        match e.2 with
        | .publish id topic payload qos retain _ => .publish id topic payload qos retain true
        | p => p
      { acc with sent := acc.sent ++ [pkt],
                 futures := if acc.futures.contains e.1 then acc.futures
                            else acc.futures ++ [e.1] })
    c

/-- Modelled from the spec: the receiver's action on CONNACK. Ignored unless
the state is connecting; otherwise the connect future is completed, and a
non-zero return code is reported as connection-denied and terminates the
client, while code 0 moves to connected and replays the outgoing session. -/
def Client.processConnack (c : Client) (sessionPresent : Bool) (returnCode : Nat) :
    Option ClientError × Client :=
  if c.state ≠ .connecting then (none, c)
  else
    let c1 : Client :=
      { c with connectPending := false,
               events := c.events ++ [Event.connectCompleted sessionPresent returnCode] }
    if returnCode ≠ 0 then
      (none, { Client.cancelAll { c1 with events := c1.events ++ [Event.connectionDenied] } with
                 state := .disconnected })
    else (none, Client.replay { c1 with state := .connected })

/-- Modelled from the spec: completing the future pending under `id`: it
leaves the registry, its completion is reported and the outgoing-store entry
is deleted. -/
def Client.complete (c : Client) (id : Nat) (granted : List Nat) : Client :=
  { c with futures := c.futures.erase id,
           outgoing := c.outgoing.filter (fun e => e.1 ≠ id),
           events := c.events ++ [.futureCompleted id granted] }

/-- Modelled from the spec: the receiver's action on SUBACK: the subscribe
future is completed with the granted codes and the outgoing-store entry is
deleted. The row of the dispatch table has no clause for an absent future:
without one there is nothing to complete, the entry is deleted all the same,
and no error is returned (`TestClientInvalidPackets`). -/
def Client.processSuback (c : Client) (id : Nat) (granted : List Nat) :
    Option ClientError × Client :=
  if c.futures.contains id then (none, c.complete id granted)
  else (none, { c with outgoing := c.outgoing.filter (fun e => e.1 ≠ id) })

/-- Modelled from the spec: the receiver's action on UNSUBACK: the
unsubscribe future is completed and the outgoing-store entry is deleted, with
or without a pending future, as for SUBACK. -/
def Client.processUnsuback (c : Client) (id : Nat) : Option ClientError × Client :=
  if c.futures.contains id then (none, c.complete id [])
  else (none, { c with outgoing := c.outgoing.filter (fun e => e.1 ≠ id) })

/-- Modelled from the spec: the receiver's action on PUBACK and PUBCOMP: look
up the outgoing future, complete it and delete the outgoing-store entry; when
absent, ignore. -/
def Client.processPubackAndPubcomp (c : Client) (id : Nat) : Option ClientError × Client :=
  if c.futures.contains id then (none, c.complete id []) else (none, c)

/-- Modelled from the spec: the receiver's action on PUBREL: look up the
incoming entry, hand the stored PUBLISH to the user callback, delete the entry
and send PUBCOMP; when the ID is absent, ignore. -/
def Client.processPubrel (c : Client) (id : Nat) : Option ClientError × Client :=
  match c.incoming.lookup id with
  | some (.publish _ topic payload qos _ _) =>
    (none, { c with incoming := c.incoming.filter (fun e => e.1 ≠ id),
                    events := c.events ++ [.delivered topic payload qos],
                    sent := c.sent ++ [.pubcomp id] })
  | _ => (none, c)

/-! ## The loop of `Decode`, pass by pass -/

/-- Outcome of one pass through the body of the loop of `Decode`: the call
returns, or the loop goes on with a new message, position and `remlen`. -/
inductive Step where
  | done (r : Res SubscribeMessage)
  | next (m : SubscribeMessage) (total : Nat) (remlen : Int)
  deriving DecidableEq, Repr

/-- The body of the `for remlen > 0` loop of `Decode` (subscribe.go:78-87),
one pass. -/
def decodeStep (src : List Byte) (m : SubscribeMessage) (total : Nat) (remlen : Int) : Step :=
  if total > src.length then .done .outOfRange else
  match readLPBytes (src.drop total) with
  | (t, n, err) =>
    let total := total + n
    if err.isSome then .done (.ret total err m) else
    match src[total]? with
    | none => .done .outOfRange
    | some q =>
      .next { m with Subscriptions := m.Subscriptions ++ [⟨t, q⟩] } (total + 1) (remlen - n - 1)

/-- The number of passes through the body of the loop of `Decode`, counted
along the same run as `decodeLoop`; `fuel` bounds it. -/
def decodeIters : Nat → List Byte → SubscribeMessage → Nat → Int → Nat
  | fuel, src, m, total, remlen =>
    if remlen > 0 then
      match fuel with
      | 0 => 0
      | fuel + 1 =>
        match decodeStep src m total remlen with
        | .done _ => 1
        | .next m1 total1 remlen1 => 1 + decodeIters fuel src m1 total1 remlen1
    else 0

/-- The subscription entries found in `bytes` in wire order while `remlen` is
positive: the length-prefixed topic, then the QoS byte; the list ends at the
first entry that is not all there. -/
def entriesFrom : Nat → List Byte → Int → List Subscription
  | 0, _, _ => []
  | fuel + 1, bytes, remlen =>
    if remlen > 0 then
      match readLPBytes bytes with
      | (t, n, none) =>
        match bytes[n]? with
        | some q => ⟨t, q⟩ :: entriesFrom fuel (bytes.drop (n + 1)) (remlen - n - 1)
        | none => []
      | _ => []
    else []

/-- The subscription entries of an input of type `t` in wire order: those
that follow the fixed header and the 2-byte packet ID, for the remaining
length the header declares. -/
def wireEntries (t : MessageType) (src : List Byte) : List Subscription :=
  match headerDecode src t with
  | (hl, _, rl, _) => entriesFrom ((rl : Int) - 2).toNat (src.drop (hl + 2)) ((rl : Int) - 2)

/-! ## Lemmas on the helpers -/

theorem remLenBytes_length (rl : Nat) : (remLenBytes rl).length + 1 = headerLen rl := by
  unfold remLenBytes headerLen
  split_ifs <;> rfl

theorem headerWire_length (t : MessageType) (rl : Nat) :
    (headerWire t rl).length = headerLen rl := by
  simp [headerWire, remLenBytes_length]

theorem headerLen_pos (rl : Nat) : 2 ≤ headerLen rl := by
  unfold headerLen
  split_ifs <;> omega

theorem foldl_msglen (subs : List Subscription) (acc : Nat) :
    subs.foldl (fun total t => total + (2 + t.Topic.length + 1)) acc
      = acc + (subsWire subs).length := by
  induction subs generalizing acc with
  | nil => simp [subsWire]
  | cons t ts ih =>
    simp only [List.foldl_cons, ih, subsWire, List.length_cons, List.length_append]
    omega

theorem msglen_eq (m : SubscribeMessage) :
    m.msglen = 2 + (subsWire m.Subscriptions).length := by
  simp [SubscribeMessage.msglen, foldl_msglen]

theorem payloadWire_length (m : SubscribeMessage) : (payloadWire m).length = m.msglen := by
  simp [payloadWire, msglen_eq]
  omega

theorem Len_eq (m : SubscribeMessage) : m.Len = headerLen m.msglen + m.msglen := rfl

/-- One iteration of the range loop of `Encode` on a buffer split at `total`,
when the topic fits a 2-byte length and the buffer has room for the entry. -/
theorem encodeLoop_cons (t : Subscription) (ts : List Subscription)
    (pre rest rest1 : List Byte) (q : Byte)
    (ht : t.Topic.length ≤ 65535)
    (hrest : rest.drop (2 + t.Topic.length) = q :: rest1) :
    encodeLoop (t :: ts) (pre ++ rest) pre.length
      = encodeLoop ts
          ((pre ++ toByte (t.Topic.length / 256) :: toByte t.Topic.length :: t.Topic ++ [t.QoS])
            ++ rest1)
          (pre ++ toByte (t.Topic.length / 256) :: toByte t.Topic.length :: t.Topic
            ++ [t.QoS]).length := by
  have hlen1 : rest1.length + 1 = rest.length - (2 + t.Topic.length) := by
    have := congrArg List.length hrest
    simp at this
    omega
  rw [encodeLoop]
  simp only [List.drop_left, List.take_left, writeLPBytes, hrest]
  have h1 : ¬ (pre.length > (pre ++ rest).length) := by simp
  have h2 : ¬ (t.Topic.length > 65535) := by omega
  have h3 : ¬ (rest.length < 2 + t.Topic.length) := by omega
  simp only [h1, h2, h3, if_false]
  simp only [Option.isSome_none, Bool.false_eq_true, if_false]
  have h4 : pre.length + (2 + t.Topic.length)
      < (pre ++ (toByte (t.Topic.length / 256) :: toByte t.Topic.length :: t.Topic
          ++ q :: rest1)).length := by
    simp; omega
  have hset : (pre ++ (toByte (t.Topic.length / 256) :: toByte t.Topic.length :: t.Topic
        ++ q :: rest1)).set (pre.length + (2 + t.Topic.length)) t.QoS
      = (pre ++ toByte (t.Topic.length / 256) :: toByte t.Topic.length :: t.Topic ++ [t.QoS])
          ++ rest1 := by
    have hsplit : pre ++ (toByte (t.Topic.length / 256) :: toByte t.Topic.length :: t.Topic
          ++ q :: rest1)
        = (pre ++ toByte (t.Topic.length / 256) :: toByte t.Topic.length :: t.Topic)
            ++ q :: rest1 := by
      simp
    rw [hsplit]
    have hl : pre.length + (2 + t.Topic.length)
        = (pre ++ toByte (t.Topic.length / 256) :: toByte t.Topic.length :: t.Topic).length := by
      simp; omega
    rw [hl, List.set_append_right _ _ (le_refl _)]
    simp
  have hl2 : pre.length + (2 + t.Topic.length) + 1
      = (pre ++ toByte (t.Topic.length / 256) :: toByte t.Topic.length :: t.Topic
          ++ [t.QoS]).length := by
    simp; omega
  rw [if_pos h4, hset, hl2]

/-- A list longer than `n` splits after `n` elements into a head and a tail. -/
theorem drop_eq_cons_of_lt {α : Type} (l : List α) (n : Nat) (h : n < l.length) :
    ∃ q r, l.drop n = q :: r ∧ r.length + 1 = l.length - n := by
  cases hd : l.drop n with
  | nil =>
    have := congrArg List.length hd
    simp at this
    omega
  | cons q r =>
    refine ⟨q, r, rfl, ?_⟩
    have := congrArg List.length hd
    simp at this
    omega

/-- The range loop of `Encode` on a buffer split at `total`: when every topic
fits a 2-byte length and the entries fit the rest of the buffer, the loop
writes exactly the entries and returns without error. -/
theorem encodeLoop_ok (subs : List Subscription) (pre rest : List Byte)
    (htop : ∀ t ∈ subs, t.Topic.length ≤ 65535)
    (hfit : (subsWire subs).length ≤ rest.length) :
    encodeLoop subs (pre ++ rest) pre.length
      = .ret (pre.length + (subsWire subs).length) none
          (pre ++ subsWire subs ++ rest.drop (subsWire subs).length) := by
  induction subs generalizing pre rest with
  | nil => simp [encodeLoop, subsWire]
  | cons t ts ih =>
    have ht : t.Topic.length ≤ 65535 := htop t (List.mem_cons_self _ _)
    have hts : ∀ s ∈ ts, s.Topic.length ≤ 65535 :=
      fun s hs => htop s (List.mem_cons_of_mem _ hs)
    simp only [subsWire, List.length_cons, List.length_append] at hfit
    obtain ⟨q, rest1, hrest, hlen1⟩ := drop_eq_cons_of_lt rest (2 + t.Topic.length) (by omega)
    have hdrop : rest.drop (subsWire (t :: ts)).length = rest1.drop (subsWire ts).length := by
      have hsum : (subsWire (t :: ts)).length
          = (2 + t.Topic.length) + ((subsWire ts).length + 1) := by
        simp [subsWire]; omega
      rw [hsum, ← List.drop_drop, hrest]
      simp
    rw [encodeLoop_cons t ts pre rest rest1 q ht hrest, ih _ rest1 hts (by omega), hdrop]
    simp [subsWire]
    omega

/-- Converse of `encodeLoop_ok`: the loop returns without error only when
every topic fits a 2-byte length and the entries fit the rest of the buffer. -/
theorem encodeLoop_inv (subs : List Subscription) (pre rest : List Byte)
    (n : Nat) (out : List Byte)
    (h : encodeLoop subs (pre ++ rest) pre.length = .ret n none out) :
    (∀ t ∈ subs, t.Topic.length ≤ 65535) ∧ (subsWire subs).length ≤ rest.length := by
  induction subs generalizing pre rest with
  | nil => simp [subsWire]
  | cons t ts ih =>
    by_cases ht : t.Topic.length ≤ 65535
    · by_cases hroom : 2 + t.Topic.length < rest.length
      · obtain ⟨q, rest1, hrest, hlen1⟩ := drop_eq_cons_of_lt rest (2 + t.Topic.length) hroom
        rw [encodeLoop_cons t ts pre rest rest1 q ht hrest] at h
        obtain ⟨h1, h2⟩ := ih _ rest1 h
        refine ⟨?_, ?_⟩
        · intro s hs
          rcases List.mem_cons.mp hs with rfl | hs
          · exact ht
          · exact h1 s hs
        · simp only [subsWire, List.length_cons, List.length_append]
          omega
      · exfalso
        rw [encodeLoop] at h
        simp only [List.drop_left, List.take_left, writeLPBytes] at h
        have h1 : ¬ (pre.length > (pre ++ rest).length) := by simp
        have h2 : ¬ (t.Topic.length > 65535) := by omega
        simp only [h1, h2, if_false] at h
        by_cases h3 : rest.length < 2 + t.Topic.length
        · simp [h3] at h
        · have h4 : rest.length = 2 + t.Topic.length := by omega
          simp only [h3, if_false, Option.isSome_none, Bool.false_eq_true] at h
          have h5 : ¬ (pre.length + (2 + t.Topic.length)
              < (pre ++ (toByte (t.Topic.length / 256) :: toByte t.Topic.length :: t.Topic
                  ++ List.drop (2 + t.Topic.length) rest)).length) := by
            simp; omega
          rw [if_neg h5] at h
          exact Res.noConfusion h
    · exfalso
      rw [encodeLoop] at h
      simp only [List.drop_left, List.take_left, writeLPBytes] at h
      have h1 : ¬ (pre.length > (pre ++ rest).length) := by simp
      have h2 : t.Topic.length > 65535 := by omega
      simp [h1, h2] at h

/-- The part of `Encode` before the range loop: once the size check and the
remaining-length bound pass, the header and the packet ID are written and the
loop starts right after them. -/
theorem Encode_head (m : SubscribeMessage) (dst : List Byte)
    (hlen : m.Len ≤ dst.length) (hmax : m.msglen ≤ maxRemainingLength) :
    m.Encode dst
      = encodeLoop m.Subscriptions
          ((headerWire m.Typ m.msglen
              ++ [toByte (m.PacketId.val / 256), toByte m.PacketId.val])
            ++ dst.drop (headerLen m.msglen + 2))
          (headerWire m.Typ m.msglen
              ++ [toByte (m.PacketId.val / 256), toByte m.PacketId.val]).length := by
  have hle : headerLen m.msglen + m.msglen ≤ dst.length := hlen
  have hml : 2 ≤ m.msglen := by rw [msglen_eq]; omega
  obtain ⟨a, r1, hr1, hl1⟩ := drop_eq_cons_of_lt dst (headerLen m.msglen) (by omega)
  obtain ⟨b, r2, hr2, hl2⟩ := drop_eq_cons_of_lt r1 0 (by omega)
  simp only [List.drop_zero] at hr2
  subst hr2
  have hdrop2 : dst.drop (headerLen m.msglen + 2) = r2 := by
    rw [← List.drop_drop, hr1]
    rfl
  have hw : (toByte (m.Typ.code * 16 + (m.Typ.defaultFlags ||| 0) % 16) :: remLenBytes m.msglen)
      = headerWire m.Typ m.msglen := rfl
  have hwl := headerWire_length m.Typ m.msglen
  unfold SubscribeMessage.Encode
  simp only [header.encode, header.len, headerEncode, List.drop_zero, List.take_zero,
    List.nil_append, Nat.zero_add]
  have c1 : ¬ (dst.length < m.Len) := by omega
  have c2 : ¬ (m.msglen > maxRemainingLength) := by omega
  have c3 : ¬ (dst.length < headerLen m.msglen) := by omega
  simp only [c1, c2, c3, if_false, Option.isSome_none, Bool.false_eq_true]
  rw [hw]
  have c4 : ¬ (headerLen m.msglen
      > (headerWire m.Typ m.msglen ++ List.drop (headerLen m.msglen) dst).length) := by
    simp [hwl]
  rw [if_neg c4]
  have hd : List.drop (headerLen m.msglen)
      (headerWire m.Typ m.msglen ++ List.drop (headerLen m.msglen) dst) = a :: b :: r2 := by
    rw [← hwl, List.drop_left, hwl, hr1]
  have ht : List.take (headerLen m.msglen)
      (headerWire m.Typ m.msglen ++ List.drop (headerLen m.msglen) dst)
      = headerWire m.Typ m.msglen := by
    rw [← hwl, List.take_left]
  rw [hd, ht, hdrop2]
  simp only [PutUint16]
  congr 1
  · simp
  · simp [hwl]

/-- `Encode` on a large enough buffer, for a message within the remaining
length bound whose topics each fit a 2-byte length: it returns `Len()` without
error, having written the header, the payload, and nothing after them. -/
theorem Encode_ok (m : SubscribeMessage) (dst : List Byte)
    (hlen : m.Len ≤ dst.length) (hmax : m.msglen ≤ maxRemainingLength)
    (htop : ∀ t ∈ m.Subscriptions, t.Topic.length ≤ 65535) :
    m.Encode dst
      = .ret m.Len none (headerWire m.Typ m.msglen ++ payloadWire m ++ dst.drop m.Len) := by
  have hle : headerLen m.msglen + m.msglen ≤ dst.length := hlen
  have hml := msglen_eq m
  rw [Encode_head m dst hlen hmax, encodeLoop_ok _ _ _ htop (by rw [List.length_drop]; omega)]
  have hwl := headerWire_length m.Typ m.msglen
  congr 1
  · rw [List.length_append, hwl, Len_eq]
    simp only [List.length_cons, List.length_nil]
    omega
  · simp only [payloadWire, List.append_assoc, List.cons_append, List.nil_append,
      List.drop_drop, Len_eq]
    have : headerLen m.msglen + 2 + (subsWire m.Subscriptions).length
        = headerLen m.msglen + m.msglen := by omega
    rw [this]

/-- Converse of `Encode_ok`: `Encode` returns without error only on a large
enough buffer, for a message within the remaining-length bound whose topics
each fit a 2-byte length. -/
theorem Encode_inv (m : SubscribeMessage) (dst : List Byte) (n : Nat) (out : List Byte)
    (h : m.Encode dst = .ret n none out) :
    m.Len ≤ dst.length ∧ m.msglen ≤ maxRemainingLength
      ∧ ∀ t ∈ m.Subscriptions, t.Topic.length ≤ 65535 := by
  by_cases hlen : m.Len ≤ dst.length
  · by_cases hmax : m.msglen ≤ maxRemainingLength
    · rw [Encode_head m dst hlen hmax] at h
      exact ⟨hlen, hmax, (encodeLoop_inv _ _ _ _ _ h).1⟩
    · exfalso
      unfold SubscribeMessage.Encode at h
      simp only [header.encode, headerEncode] at h
      have c1 : ¬ (dst.length < m.Len) := by omega
      have c2 : m.msglen > maxRemainingLength := by omega
      simp [c1, c2] at h
  · exfalso
    unfold SubscribeMessage.Encode at h
    have c1 : dst.length < m.Len := by omega
    simp [c1] at h

@[simp] theorem toByte_val (n : Nat) : (toByte n).val = n % 256 := rfl

/-- The remaining-length decoder inverts the encoder on every value up to the
largest remaining length, whatever follows the field. -/
theorem decodeRemLen_remLenBytes (rl : Nat) (rest : List Byte)
    (hmax : rl ≤ maxRemainingLength) :
    decodeRemLen (remLenBytes rl ++ rest) = .ok (rl, headerLen rl - 1) := by
  unfold maxRemainingLength at hmax
  unfold remLenBytes headerLen
  split_ifs with h1 h2 h3
  · have e : rl % 256 = rl := by omega
    simp [decodeRemLen, e]
    omega
  · have a1 : ¬ ((rl % 128 + 128) % 256 < 128) := by omega
    have a2 : (rl / 128) % 256 < 128 := by omega
    simp only [List.cons_append, List.nil_append, decodeRemLen, toByte_val, a1, a2, if_true,
      if_false]
    congr 2
    omega
  · have a1 : ¬ ((rl % 128 + 128) % 256 < 128) := by omega
    have a2 : ¬ ((rl / 128 % 128 + 128) % 256 < 128) := by omega
    have a3 : (rl / 16384) % 256 < 128 := by omega
    simp only [List.cons_append, List.nil_append, decodeRemLen, toByte_val, a1, a2, a3, if_true,
      if_false]
    congr 2
    omega
  · have a1 : ¬ ((rl % 128 + 128) % 256 < 128) := by omega
    have a2 : ¬ ((rl / 128 % 128 + 128) % 256 < 128) := by omega
    have a3 : ¬ ((rl / 16384 % 128 + 128) % 256 < 128) := by omega
    have a4 : (rl / 2097152) % 256 < 128 := by omega
    simp only [List.cons_append, List.nil_append, decodeRemLen, toByte_val, a1, a2, a3, a4,
      if_true, if_false]
    congr 2
    omega

/-- The first header byte carries the type code and the fixed flags. -/
theorem typeByte_val (t : MessageType) :
    (toByte (t.code * 16 + (t.defaultFlags ||| 0) % 16)).val = t.code * 16 + t.defaultFlags := by
  cases t <;> decide

theorem code_flags_bounds (t : MessageType) : t.code < 16 ∧ t.defaultFlags < 16 := by
  cases t <;> decide

/-- The fixed-header decoder inverts the encoder when the declared remaining
length is present in the buffer. -/
theorem headerDecode_headerWire (t : MessageType) (rl : Nat) (rest : List Byte)
    (hmax : rl ≤ maxRemainingLength) (hrest : rl ≤ rest.length) :
    headerDecode (headerWire t rl ++ rest) t = (headerLen rl, t.defaultFlags, rl, none) := by
  obtain ⟨hc, hf⟩ := code_flags_bounds t
  have hb := typeByte_val t
  have hl := remLenBytes_length rl
  simp only [headerWire, List.cons_append, headerDecode, hb,
    decodeRemLen_remLenBytes rl rest hmax]
  have e1 : (t.code * 16 + t.defaultFlags) / 16 = t.code := by omega
  have e2 : (t.code * 16 + t.defaultFlags) % 16 = t.defaultFlags := by omega
  have e3 : ¬ (rl > (remLenBytes rl ++ rest).length - (headerLen rl - 1)) := by
    rw [List.length_append]; omega
  have e4 : 1 + (headerLen rl - 1) = headerLen rl := by omega
  simp [e1, e2, e4]
  omega

/-- `Uint16` reads back what `PutUint16` wrote. -/
theorem Uint16_bytes (v : Fin 65536) (r : List Byte) :
    Uint16 (toByte (v.val / 256) :: toByte v.val :: r) = some v := by
  have hv := v.isLt
  simp only [Uint16, toByte_val, Option.some.injEq]
  apply Fin.ext
  simp only
  omega

/-- The reader of length-prefixed bytes inverts the writer, whatever follows. -/
theorem readLPBytes_wire (b rest : List Byte) (hb : b.length ≤ 65535) :
    readLPBytes (toByte (b.length / 256) :: toByte b.length :: b ++ rest)
      = (b, 2 + b.length, none) := by
  have e : b.length / 256 % 256 * 256 + b.length % 256 = b.length := by omega
  simp [readLPBytes, e]

/-- One iteration of the loop of `Decode` on a buffer that holds a
well-formed subscription entry at `total`. -/
theorem decodeLoop_cons (fuel : Nat) (pre rest : List Byte) (t : Subscription)
    (m : SubscribeMessage) (remlen : Int)
    (ht : t.Topic.length ≤ 65535) (hpos : 0 < remlen) :
    decodeLoop (fuel + 1)
        (pre ++ (toByte (t.Topic.length / 256) :: toByte t.Topic.length :: t.Topic
          ++ t.QoS :: rest)) m pre.length remlen
      = decodeLoop fuel
          (pre ++ (toByte (t.Topic.length / 256) :: toByte t.Topic.length :: t.Topic
            ++ t.QoS :: rest))
          { m with Subscriptions := m.Subscriptions ++ [t] }
          (pre.length + (2 + t.Topic.length) + 1)
          (remlen - ((2 + t.Topic.length : Nat) : Int) - 1) := by
  rw [decodeLoop]
  have c1 : ¬ (pre.length > (pre ++ (toByte (t.Topic.length / 256) :: toByte t.Topic.length
      :: t.Topic ++ t.QoS :: rest)).length) := by simp
  simp only [hpos, if_true, c1, if_false, List.drop_left,
    readLPBytes_wire t.Topic (t.QoS :: rest) ht, Option.isSome_none, Bool.false_eq_true]
  have hget : (pre ++ (toByte (t.Topic.length / 256) :: toByte t.Topic.length :: t.Topic
      ++ t.QoS :: rest))[pre.length + (2 + t.Topic.length)]? = some t.QoS := by
    rw [List.getElem?_append_right (by omega)]
    have : pre.length + (2 + t.Topic.length) - pre.length
        = (toByte (t.Topic.length / 256) :: toByte t.Topic.length :: t.Topic).length := by
      simp; omega
    rw [this, List.getElem?_append_right (le_refl _)]
    simp
  rw [hget]


/-- The loop of `Decode` on a buffer that holds well-formed subscription
entries at `total`, with `remlen` their exact size: it appends the entries in
order and returns the position after them. -/
theorem decodeLoop_wire (subs : List Subscription) (fuel : Nat) (pre post : List Byte)
    (m : SubscribeMessage)
    (htop : ∀ t ∈ subs, t.Topic.length ≤ 65535)
    (hfuel : (subsWire subs).length ≤ fuel)
    (hne : m.Subscriptions ++ subs ≠ []) :
    decodeLoop fuel (pre ++ (subsWire subs ++ post)) m pre.length
        (((subsWire subs).length : Nat) : Int)
      = .ret (pre.length + (subsWire subs).length) none
          { m with Subscriptions := m.Subscriptions ++ subs } := by
  induction subs generalizing fuel pre m with
  | nil =>
    have hl : m.Subscriptions.length ≠ 0 := by
      intro h0
      apply hne
      simp [List.length_eq_zero.mp h0]
    rw [decodeLoop.eq_def]
    simp [subsWire, hl]
  | cons t ts ih =>
    have ht : t.Topic.length ≤ 65535 := htop t (List.mem_cons_self _ _)
    have hts : ∀ s ∈ ts, s.Topic.length ≤ 65535 :=
      fun s hs => htop s (List.mem_cons_of_mem _ hs)
    have hsw : (subsWire (t :: ts)).length = (subsWire ts).length + (2 + t.Topic.length) + 1 := by
      simp [subsWire]; omega
    obtain ⟨f, rfl⟩ : ∃ f, fuel = f + 1 := ⟨fuel - 1, by omega⟩
    have hsrc : pre ++ (subsWire (t :: ts) ++ post)
        = pre ++ (toByte (t.Topic.length / 256) :: toByte t.Topic.length :: t.Topic
            ++ t.QoS :: (subsWire ts ++ post)) := by
      simp [subsWire]
    have hsrc2 : pre ++ (toByte (t.Topic.length / 256) :: toByte t.Topic.length :: t.Topic
            ++ t.QoS :: (subsWire ts ++ post))
        = (pre ++ toByte (t.Topic.length / 256) :: toByte t.Topic.length :: t.Topic
            ++ [t.QoS]) ++ (subsWire ts ++ post) := by
      simp
    have hl2 : pre.length + (2 + t.Topic.length) + 1
        = (pre ++ toByte (t.Topic.length / 256) :: toByte t.Topic.length :: t.Topic
            ++ [t.QoS]).length := by
      simp; omega
    have hrem : (((subsWire (t :: ts)).length : Nat) : Int) - ((2 + t.Topic.length : Nat) : Int) - 1
        = (((subsWire ts).length : Nat) : Int) := by
      rw [hsw]; push_cast; ring
    rw [hsrc, decodeLoop_cons f pre _ t m _ ht (by rw [hsw]; positivity), ← hsrc, hrem,
      hsrc, hsrc2, hl2,
      ih f _ { m with Subscriptions := m.Subscriptions ++ [t] } hts (by omega) (by simp)]
    congr 1
    · rw [← hl2, hsw]; omega
    · simp

/-- `Decode` on the bytes `Encode` produces for `p`, followed by any bytes
`post`, into a message `m` of the same type: it returns `Len()` of `p` without
error, sets the packet ID and appends the subscriptions of `p`. -/
theorem Decode_wire (m p : SubscribeMessage) (post : List Byte)
    (hty : m.Typ = p.Typ)
    (hmax : p.msglen ≤ maxRemainingLength)
    (htop : ∀ t ∈ p.Subscriptions, t.Topic.length ≤ 65535)
    (hne : m.Subscriptions ++ p.Subscriptions ≠ []) :
    m.Decode (headerWire p.Typ p.msglen ++ payloadWire p ++ post)
      = .ret p.Len none
          { m with PacketId := p.PacketId,
                   Subscriptions := m.Subscriptions ++ p.Subscriptions } := by
  have hml := msglen_eq p
  have hwl := headerWire_length p.Typ p.msglen
  have hpl := payloadWire_length p
  unfold SubscribeMessage.Decode
  simp only [List.drop_zero, header.decode, hty, List.append_assoc, Nat.zero_add]
  rw [headerDecode_headerWire p.Typ p.msglen _ hmax (by rw [List.length_append]; omega)]
  simp only [Option.isSome_none, Bool.false_eq_true, if_false]
  have c1 : ¬ (headerLen p.msglen
      > (headerWire p.Typ p.msglen ++ (payloadWire p ++ post)).length) := by
    rw [List.length_append]; omega
  rw [if_neg c1, ← hwl, List.drop_left]
  simp only [payloadWire, List.cons_append, Uint16_bytes]
  have hsrc : headerWire p.Typ p.msglen
        ++ toByte (p.PacketId.val / 256) :: toByte p.PacketId.val
            :: (subsWire p.Subscriptions ++ post)
      = (headerWire p.Typ p.msglen ++ [toByte (p.PacketId.val / 256), toByte p.PacketId.val])
          ++ (subsWire p.Subscriptions ++ post) := by
    simp
  have hl2 : (headerWire p.Typ p.msglen).length + 2
      = (headerWire p.Typ p.msglen
          ++ [toByte (p.PacketId.val / 256), toByte p.PacketId.val]).length := by
    simp
  have hrem : ((p.msglen : Nat) : Int)
        - ((((headerWire p.Typ p.msglen).length + 2 : Nat) : Int)
            - (((headerWire p.Typ p.msglen).length : Nat) : Int))
      = (((subsWire p.Subscriptions).length : Nat) : Int) := by
    rw [hml]; push_cast; ring
  rw [hrem, hsrc, hl2, Int.toNat_ofNat,
    decodeLoop_wire p.Subscriptions _ _ post _ htop (le_refl _) (by simpa using hne)]
  congr 1
  rw [← hl2, hwl, Len_eq]
  omega

/-! ## Totality of the decoder -/

/-- A successful `readLPBytes` consumes at least the two length bytes. -/
theorem readLPBytes_count (s : List Byte) (h : (readLPBytes s).2.2 = none) :
    2 ≤ (readLPBytes s).2.1 := by
  rcases s with _ | ⟨b0, _ | ⟨b1, r⟩⟩
  · simp [readLPBytes] at h
  · simp [readLPBytes] at h
  · simp only [readLPBytes]
    split_ifs <;> simp

/-- The loop of `Decode` never uses up a bound that is at least `remlen`. -/
theorem decodeLoop_ne_outOfFuel (fuel : Nat) (src : List Byte) (m : SubscribeMessage)
    (total : Nat) (remlen : Int) (hfuel : remlen.toNat ≤ fuel) :
    decodeLoop fuel src m total remlen ≠ .outOfFuel := by
  induction fuel generalizing m total remlen with
  | zero =>
    have h0 : ¬ (remlen > 0) := by omega
    rw [decodeLoop.eq_def]
    simp only [h0, if_false]
    split_ifs <;> exact fun h => Res.noConfusion h
  | succ f ih =>
    rw [decodeLoop]
    split_ifs with hpos htot hz
    · exact fun h => Res.noConfusion h
    · have hcount := readLPBytes_count (src.drop total)
      rcases hr : readLPBytes (src.drop total) with ⟨t, n, err⟩
      rw [hr] at hcount
      simp only
      split_ifs with herr
      · exact fun h => Res.noConfusion h
      · have hn : 2 ≤ n := by
          apply hcount
          cases err with
          | none => rfl
          | some e => simp at herr
        split
        · exact fun h => Res.noConfusion h
        · apply ih
          omega
    · exact fun h => Res.noConfusion h
    · exact fun h => Res.noConfusion h

/-- `Decode` always comes back with a result or a run-time fault: the bound of
its loop is never used up. -/
theorem Decode_ne_outOfFuel (m : SubscribeMessage) (src : List Byte) :
    m.Decode src ≠ .outOfFuel := by
  unfold SubscribeMessage.Decode
  rcases hd : m.toheader.decode (src.drop 0) with ⟨hl, fl, rl, err⟩
  simp only
  split_ifs
  · exact fun h => Res.noConfusion h
  · exact fun h => Res.noConfusion h
  · split
    · exact fun h => Res.noConfusion h
    · exact decodeLoop_ne_outOfFuel _ _ _ _ _ (le_refl _)

/-! ## Further lemmas for the claims -/

theorem subsWire_replicate_length (k : Nat) (s : Subscription) :
    (subsWire (List.replicate k s)).length = k * (s.Topic.length + 3) := by
  induction k with
  | zero => simp [subsWire]
  | succ k ih =>
    simp only [List.replicate_succ, subsWire, List.length_cons, List.length_append, ih]
    ring

theorem subscribeOf_Typ (pid : Fin 65536) (subs : List Subscription) :
    (subscribeOf pid subs).Typ = MessageType.SUBSCRIBE := rfl

theorem subscribeOf_Subscriptions (pid : Fin 65536) (subs : List Subscription) :
    (subscribeOf pid subs).Subscriptions = subs := rfl

theorem msglen_replicate (pid : Fin 65536) (k len : Nat) (q : Byte) :
    (subscribeOf pid
      (List.replicate k (Subscription.mk (List.replicate len (0 : Byte)) q))).msglen
      = 2 + k * (len + 3) := by
  rw [msglen_eq, subscribeOf_Subscriptions, subsWire_replicate_length]
  simp

theorem replicate_topics_le (k len : Nat) (q : Byte) :
    ∀ t ∈ List.replicate k (Subscription.mk (List.replicate len (0 : Byte)) q),
      t.Topic.length ≤ len := by
  intro t ht
  rw [List.eq_of_mem_replicate ht]
  simp

/-- `Encode` on a large enough buffer fails in the header writer when the
remaining length exceeds the largest remaining length. -/
theorem Encode_over_max (m : SubscribeMessage) (dst : List Byte)
    (hlen : m.Len ≤ dst.length) (hmax : maxRemainingLength < m.msglen) :
    m.Encode dst = .ret 0 (some .malformed) dst := by
  unfold SubscribeMessage.Encode
  have c1 : ¬ (dst.length < m.Len) := by omega
  simp [header.encode, headerEncode, hmax, c1]

/-! ## SUBSCRIBE: the claims -/

/-- C1, as stated, fails: a message of 4097 subscriptions whose topics are
65535 bytes each has a non-empty list and topics within 65535 bytes, yet its
remaining length 268,509,188 exceeds the largest remaining length, and `Encode`
into a buffer of `Len()` bytes returns an error. -/
theorem subscribe_roundtrip_counterexample :
    (List.replicate 4097 (Subscription.mk (List.replicate 65535 (0 : Byte)) 0)) ≠ []
    ∧ (∀ t ∈ List.replicate 4097 (Subscription.mk (List.replicate 65535 (0 : Byte)) 0),
        t.Topic.length ≤ 65535)
    ∧ (subscribeOf 1
          (List.replicate 4097 (Subscription.mk (List.replicate 65535 (0 : Byte)) 0))).Encode
        (List.replicate
          (subscribeOf 1
            (List.replicate 4097
              (Subscription.mk (List.replicate 65535 (0 : Byte)) 0))).Len 0)
      = .ret 0 (some .malformed)
          (List.replicate
            (subscribeOf 1
              (List.replicate 4097
                (Subscription.mk (List.replicate 65535 (0 : Byte)) 0))).Len 0) := by
  have hml : (subscribeOf 1
      (List.replicate 4097 (Subscription.mk (List.replicate 65535 (0 : Byte)) 0))).msglen
      = 268509188 := by
    rw [msglen_replicate]
  refine ⟨?_, ?_, ?_⟩
  · intro h
    have h0 := congrArg List.length h
    rw [List.length_replicate, List.length_nil] at h0
    exact absurd h0 (by decide)
  · exact replicate_topics_le 4097 65535 0
  · apply Encode_over_max
    · rw [List.length_replicate]
    · rw [hml]
      decide

/-- C1 (amended): SUBSCRIBE round trip. For every SUBSCRIBE message with any
packet ID and a non-empty list of subscriptions whose topics are each at most
65535 bytes and whose remaining length `msglen()` is at most 268,435,455,
`Encode` into a buffer of `Len()` bytes succeeds with byte count `Len()`, and
`Decode` of those bytes into a fresh message succeeds, returns the same byte
count and yields the same packet ID and the same subscriptions in order. -/
theorem subscribe_roundtrip (pid : Fin 65536) (subs : List Subscription) (dst : List Byte)
    (hne : subs ≠ [])
    (htop : ∀ t ∈ subs, t.Topic.length ≤ 65535)
    (hmax : (subscribeOf pid subs).msglen ≤ maxRemainingLength)
    (hdst : dst.length = (subscribeOf pid subs).Len) :
    ∃ out, (subscribeOf pid subs).Encode dst = .ret (subscribeOf pid subs).Len none out
      ∧ NewSubscribeMessage.Decode out
          = .ret (subscribeOf pid subs).Len none (subscribeOf pid subs) := by
  refine ⟨_, Encode_ok (subscribeOf pid subs) dst (le_of_eq hdst.symm) hmax htop, ?_⟩
  have hdrop : dst.drop (subscribeOf pid subs).Len = [] := by
    rw [← hdst]; exact List.drop_length dst
  rw [hdrop, Decode_wire NewSubscribeMessage (subscribeOf pid subs) [] rfl hmax htop
    (by simpa [NewSubscribeMessage, subscribeOf] using hne)]
  rfl

/-- The round trip at packet ID 7 with the single subscription "abcd" at QoS 1
and a buffer of 11 bytes. -/
theorem subscribe_roundtrip_witness :
    ([⟨[97, 98, 99, 100], 1⟩] : List Subscription) ≠ []
    ∧ (∀ t ∈ ([⟨[97, 98, 99, 100], 1⟩] : List Subscription), t.Topic.length ≤ 65535)
    ∧ (subscribeOf 7 [⟨[97, 98, 99, 100], 1⟩]).msglen ≤ maxRemainingLength
    ∧ (List.replicate 11 (0 : Byte)).length = (subscribeOf 7 [⟨[97, 98, 99, 100], 1⟩]).Len
    ∧ ∃ out, (subscribeOf 7 [⟨[97, 98, 99, 100], 1⟩]).Encode (List.replicate 11 0)
        = .ret (subscribeOf 7 [⟨[97, 98, 99, 100], 1⟩]).Len none out
      ∧ NewSubscribeMessage.Decode out
          = .ret (subscribeOf 7 [⟨[97, 98, 99, 100], 1⟩]).Len none
              (subscribeOf 7 [⟨[97, 98, 99, 100], 1⟩]) :=
  ⟨by decide, by decide, by decide, by decide,
    subscribe_roundtrip 7 [⟨[97, 98, 99, 100], 1⟩] (List.replicate 11 0)
      (by decide) (by decide) (by decide) (by decide)⟩

/-- C2: `Len` is exact for SUBSCRIBE. For every message and every buffer `dst`
with `len(dst) >= Len()`, whenever `Encode(dst)` succeeds the returned byte
count equals `Len()`. -/
theorem Encode_count_eq_Len (m : SubscribeMessage) (dst : List Byte) (n : Nat)
    (out : List Byte) (hlen : m.Len ≤ dst.length)
    (h : m.Encode dst = .ret n none out) : n = m.Len := by
  obtain ⟨_, hmax, htop⟩ := Encode_inv m dst n out h
  rw [Encode_ok m dst hlen hmax htop] at h
  injection h with h1 _ _
  exact h1.symm

/-- The byte count at packet ID 7 with the single subscription "abcd" at QoS 1
and a buffer of 13 bytes, two more than `Len()`. -/
theorem Encode_count_eq_Len_witness :
    (subscribeOf 7 [⟨[97, 98, 99, 100], 1⟩]).Len ≤ (List.replicate 13 (9 : Byte)).length
    ∧ (subscribeOf 7 [⟨[97, 98, 99, 100], 1⟩]).Encode (List.replicate 13 9)
        = .ret 11 none [130, 9, 0, 7, 0, 4, 97, 98, 99, 100, 1, 9, 9]
    ∧ (11 : Nat) = (subscribeOf 7 [⟨[97, 98, 99, 100], 1⟩]).Len :=
  ⟨by decide, by decide,
    Encode_count_eq_Len (subscribeOf 7 [⟨[97, 98, 99, 100], 1⟩]) (List.replicate 13 9) 11
      [130, 9, 0, 7, 0, 4, 97, 98, 99, 100, 1, 9, 9] (by decide) (by decide)⟩

/-- C3: SUBSCRIBE `Encode` on a buffer that is too small. For every message and
every buffer `dst` with `len(dst) < Len()`, `Encode` returns the
buffer-too-small error with byte count 0 and leaves `dst` unchanged. -/
theorem Encode_buffer_too_small (m : SubscribeMessage) (dst : List Byte)
    (h : dst.length < m.Len) :
    m.Encode dst = .ret 0 (some .bufferTooSmall) dst := by
  unfold SubscribeMessage.Encode
  simp [h]

/-- The size check at a buffer of 10 bytes for a message of `Len()` 11. -/
theorem Encode_buffer_too_small_witness :
    (List.replicate 10 (9 : Byte)).length < (subscribeOf 7 [⟨[97, 98, 99, 100], 1⟩]).Len
    ∧ (subscribeOf 7 [⟨[97, 98, 99, 100], 1⟩]).Encode (List.replicate 10 9)
      = .ret 0 (some .bufferTooSmall) (List.replicate 10 9) :=
  ⟨by decide,
    Encode_buffer_too_small (subscribeOf 7 [⟨[97, 98, 99, 100], 1⟩]) (List.replicate 10 9)
      (by decide)⟩

/-- C4: SUBSCRIBE `Decode` rejects an empty subscription list. For every input
whose fixed header decodes successfully with remaining length 2 and whose
buffer holds the two packet-ID bytes after the header, `Decode` on a fresh
message returns an error with byte count 0. -/
theorem Decode_empty_list (src : List Byte) (hl fl : Nat)
    (hdec : NewSubscribeMessage.toheader.decode src = (hl, fl, 2, none))
    (hid : hl + 2 ≤ src.length) :
    ∃ pid, NewSubscribeMessage.Decode src
      = .ret 0 (some .malformed) { NewSubscribeMessage with PacketId := pid } := by
  obtain ⟨a, r1, hr1, hl1⟩ := drop_eq_cons_of_lt src hl (by omega)
  obtain ⟨b, r2, hr2, _⟩ := drop_eq_cons_of_lt r1 0 (by omega)
  simp only [List.drop_zero] at hr2
  subst hr2
  refine ⟨⟨a.val * 256 + b.val, by omega⟩, ?_⟩
  unfold SubscribeMessage.Decode
  simp only [List.drop_zero, hdec, Nat.zero_add, Option.isSome_none, Bool.false_eq_true,
    if_false, hr1, Uint16]
  have c1 : ¬ (hl > src.length) := by omega
  have hrem : ((2 : Nat) : Int) - (((hl + 2 : Nat) : Int) - ((hl : Nat) : Int)) = 0 := by
    push_cast; ring
  rw [if_neg c1, hrem, decodeLoop.eq_def]
  simp [NewSubscribeMessage]

/-- The empty list at the 4-byte packet with remaining length 2 and packet
ID 1. -/
theorem Decode_empty_list_witness :
    NewSubscribeMessage.toheader.decode [0x82, 2, 0, 1] = (2, 2, 2, none)
    ∧ 2 + 2 ≤ ([0x82, 2, 0, 1] : List Byte).length
    ∧ ∃ pid, NewSubscribeMessage.Decode [0x82, 2, 0, 1]
      = .ret 0 (some .malformed) { NewSubscribeMessage with PacketId := pid } :=
  ⟨by decide, by decide, Decode_empty_list [0x82, 2, 0, 1] 2 2 (by decide) (by decide)⟩

/-- C5, evaluated at failing inputs: `Decode` on a SUBSCRIBE packet that ends
right after a topic (remaining length 5, packet ID 1, topic "a", no QoS byte)
reads `src[total]` out of range, and so does `Decode` on a header that declares
remaining length 0, where the packet-ID read finds no bytes. -/
theorem Decode_truncated_out_of_range :
    NewSubscribeMessage.Decode [0x82, 5, 0, 1, 0, 1, 97] = .outOfRange
    ∧ NewSubscribeMessage.Decode [0x82, 0] = .outOfRange := by
  decide

/-- C6, evaluated at failing inputs: `Encode` of a SUBSCRIBE message whose
packet ID is 0 succeeds and writes the ID bytes 0, 0, and `Decode` of those
bytes succeeds and yields packet ID 0. -/
theorem subscribe_accepts_packet_id_zero :
    (subscribeOf 0 [⟨[97], 0⟩]).Encode (List.replicate 8 0)
        = .ret 8 none [0x82, 6, 0, 0, 0, 1, 97, 0]
    ∧ NewSubscribeMessage.Decode [0x82, 6, 0, 0, 0, 1, 97, 0]
        = .ret 8 none (subscribeOf 0 [⟨[97], 0⟩]) := by
  decide

/-- C7: SUBSCRIBE fixed-header flags. For every SUBSCRIBE message that `Encode`
encodes successfully, the first output byte has low four bits `0b0010` and
high four bits the SUBSCRIBE type code: it is `0x82`. -/
theorem Encode_first_byte (pid : Fin 65536) (subs : List Subscription) (dst : List Byte)
    (n : Nat) (out : List Byte)
    (h : (subscribeOf pid subs).Encode dst = .ret n none out) :
    ∃ b : Byte, out.head? = some b ∧ b.val % 16 = 2
      ∧ b.val / 16 = MessageType.SUBSCRIBE.code ∧ b.val = 0x82 := by
  obtain ⟨hlen, hmax, htop⟩ := Encode_inv _ dst n out h
  rw [Encode_ok _ dst hlen hmax htop] at h
  injection h with _ _ h3
  subst h3
  refine ⟨toByte (MessageType.SUBSCRIBE.code * 16
    + (MessageType.SUBSCRIBE.defaultFlags ||| 0) % 16), ?_, ?_, ?_, ?_⟩
  · simp [headerWire, subscribeOf_Typ]
  · decide
  · decide
  · decide

/-- The first byte at packet ID 7 with the single subscription "abcd" at QoS
1. -/
theorem Encode_first_byte_witness :
    (subscribeOf 7 [⟨[97, 98, 99, 100], 1⟩]).Encode (List.replicate 11 0)
        = .ret 11 none [130, 9, 0, 7, 0, 4, 97, 98, 99, 100, 1]
    ∧ ∃ b : Byte, [(130 : Byte), 9, 0, 7, 0, 4, 97, 98, 99, 100, 1].head? = some b
      ∧ b.val % 16 = 2 ∧ b.val / 16 = MessageType.SUBSCRIBE.code ∧ b.val = 0x82 :=
  ⟨by decide,
    Encode_first_byte 7 [⟨[97, 98, 99, 100], 1⟩] (List.replicate 11 0) 11
      [130, 9, 0, 7, 0, 4, 97, 98, 99, 100, 1] (by decide)⟩

/-- C8: SUBSCRIBE wire layout. For every message that `Encode` encodes
successfully, the bytes after the fixed header are exactly the packet ID as 2
bytes big-endian followed, for each subscription in list order, by the topic
length as 2 bytes big-endian, the topic bytes and one QoS byte (`payloadWire`);
the byte count ends there and the buffer beyond it is unchanged. -/
theorem Encode_wire_layout (m : SubscribeMessage) (dst : List Byte) (n : Nat)
    (out : List Byte) (h : m.Encode dst = .ret n none out) :
    n = m.toheader.len m.msglen + (payloadWire m).length
      ∧ (out.take n).drop (m.toheader.len m.msglen) = payloadWire m
      ∧ out.drop n = dst.drop n
      ∧ out.length = dst.length := by
  obtain ⟨hlen, hmax, htop⟩ := Encode_inv m dst n out h
  rw [Encode_ok m dst hlen hmax htop] at h
  injection h with h1 _ h3
  subst h1 h3
  have hwl := headerWire_length m.Typ m.msglen
  have hpl := payloadWire_length m
  have hL : m.Len = (headerWire m.Typ m.msglen ++ payloadWire m).length := by
    rw [List.length_append, hwl, hpl]; rfl
  refine ⟨?_, ?_, ?_, ?_⟩
  · rw [hpl]; rfl
  · rw [hL, List.take_left]
    simp only [header.len]
    rw [← hwl, List.drop_left]
  · rw [hL, List.drop_left, ← hL]
  · have hle : m.Len ≤ dst.length := hlen
    rw [List.length_append, ← hL, List.length_drop]
    omega

/-- The layout at packet ID 7 with the single subscription "abcd" at QoS 1 and
a buffer of 13 bytes. -/
theorem Encode_wire_layout_witness :
    (subscribeOf 7 [⟨[97, 98, 99, 100], 1⟩]).Encode (List.replicate 13 9)
        = .ret 11 none [130, 9, 0, 7, 0, 4, 97, 98, 99, 100, 1, 9, 9]
    ∧ (11 : Nat) = (subscribeOf 7 [⟨[97, 98, 99, 100], 1⟩]).toheader.len
          (subscribeOf 7 [⟨[97, 98, 99, 100], 1⟩]).msglen
        + (payloadWire (subscribeOf 7 [⟨[97, 98, 99, 100], 1⟩])).length
      ∧ (([130, 9, 0, 7, 0, 4, 97, 98, 99, 100, 1, 9, 9] : List Byte).take 11).drop
          ((subscribeOf 7 [⟨[97, 98, 99, 100], 1⟩]).toheader.len
            (subscribeOf 7 [⟨[97, 98, 99, 100], 1⟩]).msglen)
        = payloadWire (subscribeOf 7 [⟨[97, 98, 99, 100], 1⟩])
      ∧ ([130, 9, 0, 7, 0, 4, 97, 98, 99, 100, 1, 9, 9] : List Byte).drop 11
        = (List.replicate 13 (9 : Byte)).drop 11
      ∧ ([130, 9, 0, 7, 0, 4, 97, 98, 99, 100, 1, 9, 9] : List Byte).length
        = (List.replicate 13 (9 : Byte)).length :=
  ⟨by decide,
    Encode_wire_layout (subscribeOf 7 [⟨[97, 98, 99, 100], 1⟩]) (List.replicate 13 9) 11
      [130, 9, 0, 7, 0, 4, 97, 98, 99, 100, 1, 9, 9] (by decide)⟩

/-! ## Identified packets: the claims -/

/-- The fixed header written for remaining length 2 on a buffer that holds at
least the header. -/
theorem headerEncode_two (dst : List Byte) (t : MessageType) (h : 2 ≤ dst.length) :
    headerEncode dst 0 2 t = (2, none, headerWire t 2 ++ dst.drop 2) := by
  have c2 : ¬ (dst.length < 2) := by omega
  simp [headerEncode, maxRemainingLength, headerLen, headerWire, c2]

/-- `identifiedEncode` on a buffer of at least four bytes with a non-zero ID
writes the header for remaining length 2 and the ID, and keeps the rest. -/
theorem identifiedEncode_ok (dst : List Byte) (id : Fin 65536) (t : MessageType)
    (hid : id ≠ 0) (hdst : 4 ≤ dst.length) :
    identifiedEncode dst id t
      = (4, none, headerWire t 2 ++ toByte (id.val / 256) :: toByte id.val :: dst.drop 4) := by
  obtain ⟨a, r1, hr1, hl1⟩ := drop_eq_cons_of_lt dst 2 (by omega)
  obtain ⟨b, r2, hr2, _⟩ := drop_eq_cons_of_lt r1 0 (by omega)
  simp only [List.drop_zero] at hr2
  subst hr2
  have hd4 : dst.drop 4 = r2 := by
    have : dst.drop 4 = (dst.drop 2).drop 2 := by rw [List.drop_drop]
    rw [this, hr1]
    rfl
  have c1 : ¬ (dst.length < identifiedLen) := by
    have : identifiedLen = 4 := rfl
    omega
  have hw : (headerWire t 2).length = 2 := headerWire_length t 2
  have hdrop : List.drop 2 (headerWire t 2 ++ a :: b :: r2) = a :: b :: r2 := by
    exact List.drop_left' hw
  have htake : List.take 2 (headerWire t 2 ++ a :: b :: r2) = headerWire t 2 := by
    exact List.take_left' hw
  simp only [identifiedEncode, hid, if_false, c1, headerEncode_two dst t (by omega), hr1,
    Option.isSome_none, Bool.false_eq_true, hdrop, htake, PutUint16, hd4]

/-- `identifiedDecode` on a well-framed packet of type `t`: the header for
remaining length 2 followed by two ID bytes. -/
theorem identifiedDecode_wire (id : Fin 65536) (t : MessageType) (rest : List Byte) :
    identifiedDecode (headerWire t 2 ++ toByte (id.val / 256) :: toByte id.val :: rest) t
      = if id = 0 then (4, 0, some .malformed) else (4, id, none) := by
  have hw : (headerWire t 2).length = 2 := headerWire_length t 2
  have hh := headerDecode_headerWire t 2 (toByte (id.val / 256) :: toByte id.val :: rest)
    (by decide) (by simp)
  have hl2 : headerLen 2 = 2 := rfl
  rw [hl2] at hh
  have hdrop : List.drop 2 (headerWire t 2 ++ toByte (id.val / 256) :: toByte id.val :: rest)
      = toByte (id.val / 256) :: toByte id.val :: rest := by
    exact List.drop_left' hw
  simp only [identifiedDecode, hh, Option.isSome_none, Bool.false_eq_true, if_false, ne_eq,
    not_true_eq_false, hdrop, Uint16_bytes]

/-- The first byte of the fixed header is the type code shifted by four bits
joined with the fixed flags of the type. -/
theorem headerWire_two (t : MessageType) :
    headerWire t 2 = [toByte (t.code <<< 4 ||| t.defaultFlags), 2] := by
  cases t <;> decide

/-- C9: identified-packet codec round trip. For every packet type among
PUBACK, PUBREC, PUBREL, PUBCOMP, UNSUBACK and every packet ID in 1..65535,
`identifiedEncode` into a buffer of `identifiedLen()` bytes succeeds with byte
count 4 and writes `[type<<4 | fixed flags, 2, ID high byte, ID low byte]`,
and `identifiedDecode` of those bytes for the same type returns
`(4, that ID, no error)`. -/
theorem identified_roundtrip (t : MessageType) (id : Fin 65536) (dst : List Byte)
    (_ht : t ∈ identifiedTypes) (hid : 1 ≤ id.val) (hdst : dst.length = identifiedLen) :
    identifiedEncode dst id t
        = (4, none, [toByte (t.code <<< 4 ||| t.defaultFlags), 2,
            toByte (id.val / 256), toByte id.val])
    ∧ identifiedDecode [toByte (t.code <<< 4 ||| t.defaultFlags), 2,
            toByte (id.val / 256), toByte id.val] t
        = (4, id, none) := by
  have hid0 : id ≠ 0 := by
    intro h
    rw [h] at hid
    exact absurd hid (by decide)
  have h4 : dst.length = 4 := hdst
  have hnil : dst.drop 4 = [] := by
    rw [← h4]; exact List.drop_length dst
  constructor
  · rw [identifiedEncode_ok dst id t hid0 (by omega), hnil, headerWire_two]
    rfl
  · have hd := identifiedDecode_wire id t []
    rw [headerWire_two, if_neg hid0] at hd
    exact hd

/-- The round trip for PUBACK with packet ID 7, as in `TestIdentifiedEncode`
and `TestIdentifiedDecode`. -/
theorem identified_roundtrip_witness :
    MessageType.PUBACK ∈ identifiedTypes
    ∧ 1 ≤ (7 : Fin 65536).val
    ∧ (List.replicate 4 (0 : Byte)).length = identifiedLen
    ∧ identifiedEncode (List.replicate 4 0) 7 MessageType.PUBACK
        = (4, none, [toByte (MessageType.PUBACK.code <<< 4 ||| MessageType.PUBACK.defaultFlags),
            2, toByte ((7 : Fin 65536).val / 256), toByte (7 : Fin 65536).val])
    ∧ identifiedDecode
          [toByte (MessageType.PUBACK.code <<< 4 ||| MessageType.PUBACK.defaultFlags), 2,
            toByte ((7 : Fin 65536).val / 256), toByte (7 : Fin 65536).val] MessageType.PUBACK
        = (4, 7, none) :=
  ⟨by decide, by decide, by decide,
    identified_roundtrip MessageType.PUBACK 7 (List.replicate 4 0) (by decide) (by decide)
      (by decide)⟩

/-- C10: identified packets reject packet ID 0. For every identified packet
type, `identifiedEncode` with ID 0 returns an error with byte count 0 and
leaves the buffer unchanged, and `identifiedDecode` of a well-framed 4-byte
packet whose ID bytes are 0, 0 returns an error with byte count 4 and ID 0. -/
theorem identified_rejects_zero (t : MessageType) (dst : List Byte)
    (_ht : t ∈ identifiedTypes) :
    identifiedEncode dst 0 t = (0, some .malformed, dst)
    ∧ identifiedDecode [toByte (t.code <<< 4 ||| t.defaultFlags), 2, 0, 0] t
        = (4, 0, some .malformed) := by
  constructor
  · simp [identifiedEncode]
  · have hd := identifiedDecode_wire 0 t []
    rw [headerWire_two, if_pos rfl] at hd
    exact hd

/-- The rejection of ID 0 for PUBACK, as in `TestIdentifiedEncodeError2` and
`TestIdentifiedDecodeError3`. -/
theorem identified_rejects_zero_witness :
    MessageType.PUBACK ∈ identifiedTypes
    ∧ identifiedEncode (List.replicate 4 0) 0 MessageType.PUBACK
        = (0, some .malformed, List.replicate 4 0)
    ∧ identifiedDecode
          [toByte (MessageType.PUBACK.code <<< 4 ||| MessageType.PUBACK.defaultFlags), 2, 0, 0]
          MessageType.PUBACK
        = (4, 0, some .malformed) :=
  ⟨by decide, identified_rejects_zero MessageType.PUBACK (List.replicate 4 0) (by decide)⟩

/-! ## Identified packets, stream decoder, client engine and tracker: the claims -/

/-- The fixed-header decoder on a 2-byte header of the expected type whose
remaining-length byte is `b`: it succeeds with remaining length `b` when that
many bytes follow, and reports insufficient bytes with count 2 otherwise. -/
theorem headerDecode_short (t : MessageType) (b : Byte) (rest : List Byte)
    (hb : b.val < 128) :
    headerDecode (toByte (t.code <<< 4 ||| t.defaultFlags) :: b :: rest) t
      = if b.val > rest.length then (2, 0, 0, some .insufficientBytes)
        else (2, t.defaultFlags, b.val, none) := by
  have h1 : (toByte (t.code <<< 4 ||| t.defaultFlags)).val / 16 = t.code := by
    cases t <;> decide
  have h2 : (toByte (t.code <<< 4 ||| t.defaultFlags)).val % 16 = t.defaultFlags := by
    cases t <;> decide
  simp only [headerDecode, h1, h2, ne_eq, not_true_eq_false, and_false, if_false,
    decodeRemLen, hb, if_true, List.length_cons, Nat.add_sub_cancel]

/-- C11: identified packets require remaining length 2 and two ID bytes. For
every identified packet type, `identifiedDecode` of an input with a 2-byte
header of that type (a remaining-length field of one byte) whose remaining
length is not 2, or whose buffer holds fewer than 2 bytes after the header,
returns an error with byte count 2, the header length, and ID 0. -/
theorem identified_requires_two (t : MessageType) (b : Byte) (rest : List Byte)
    (_ht : t ∈ identifiedTypes) (hb : b.val < 128)
    (h : b.val ≠ 2 ∨ rest.length < 2) :
    ∃ e, identifiedDecode (toByte (t.code <<< 4 ||| t.defaultFlags) :: b :: rest) t
      = (2, 0, some e) := by
  simp only [identifiedDecode, headerDecode_short t b rest hb]
  by_cases hgt : b.val > rest.length
  · exact ⟨.insufficientBytes, by simp [hgt]⟩
  · have hne : b.val ≠ 2 := by
      rcases h with h | h
      · exact h
      · omega
    exact ⟨.malformed, by simp [hgt, hne]⟩

/-- The two failing packets of `TestIdentifiedDecodeError1` and
`TestIdentifiedDecodeError2`: remaining length 1, and remaining length 2 with
one byte after the header. -/
theorem identified_requires_two_witness :
    MessageType.PUBACK ∈ identifiedTypes
    ∧ ((1 : Byte).val < 128 ∧ ((1 : Byte).val ≠ 2 ∨ ([0, 7] : List Byte).length < 2))
    ∧ (∃ e, identifiedDecode
        (toByte (MessageType.PUBACK.code <<< 4 ||| MessageType.PUBACK.defaultFlags)
          :: 1 :: [0, 7]) MessageType.PUBACK = (2, 0, some e))
    ∧ (∃ e, identifiedDecode
        (toByte (MessageType.PUBACK.code <<< 4 ||| MessageType.PUBACK.defaultFlags)
          :: 2 :: [7]) MessageType.PUBACK = (2, 0, some e)) :=
  ⟨by decide, by decide,
    identified_requires_two MessageType.PUBACK 1 [0, 7] (by decide) (by decide) (by decide),
    identified_requires_two MessageType.PUBACK 2 [7] (by decide) (by decide) (by decide)⟩

/-- C12: remaining-length overflow detection. For every input whose
remaining-length field has the continuation bit set on all of its first four
bytes, `Read` returns the detection-overflow error and no packet, whatever the
packet decoders are. -/
theorem Read_detection_overflow {π : Type}
    (decode : MessageType → List Byte → Except Error π)
    (b0 b1 b2 b3 b4 : Byte) (rest : List Byte)
    (h1 : 128 ≤ b1.val) (h2 : 128 ≤ b2.val) (h3 : 128 ≤ b3.val) (h4 : 128 ≤ b4.val) :
    (Read decode (b0 :: b1 :: b2 :: b3 :: b4 :: rest)).1 = .error .detectionOverflow := by
  have c1 : ¬ (b1.val < 128) := by omega
  have c2 : ¬ (b2.val < 128) := by omega
  have c3 : ¬ (b3.val < 128) := by omega
  have c4 : ¬ (b4.val < 128) := by omega
  simp only [Read, decodeRemLen, c1, c2, c3, c4, if_false]

/-- The input of `TestDecoderDetectionOverflowError`. -/
theorem Read_detection_overflow_witness :
    (128 ≤ (0xff : Byte).val ∧ 128 ≤ (0x80 : Byte).val)
    ∧ (Read (fun _ _ => (Except.ok () : Except Error Unit))
        [0x10, 0xff, 0xff, 0xff, 0x80]).1 = .error .detectionOverflow :=
  ⟨by decide,
    Read_detection_overflow (fun _ _ => (Except.ok () : Except Error Unit))
      0x10 0xff 0xff 0xff 0x80 [] (by decide) (by decide) (by decide) (by decide)⟩

/-- C13, as stated, fails: a client that has sent CONNECT and waits for the
CONNACK is not connected, yet `Close` and `Disconnect` return no error and move
it to disconnected, as the specification words both calls. -/
theorem not_connected_rejected_counterexample :
    (Client.New.Connect ⟨[], true, true⟩).client.state = .connecting
    ∧ (Client.New.Connect ⟨[], true, true⟩).client.state ≠ .connected
    ∧ (Client.New.Connect ⟨[], true, true⟩).client.Close
        = (none, { (Client.New.Connect ⟨[], true, true⟩).client with
                     state := .disconnected, connectPending := false })
    ∧ (Client.New.Connect ⟨[], true, true⟩).client.Disconnect
        = (none, { (Client.New.Connect ⟨[], true, true⟩).client with
                     state := .disconnected, connectPending := false,
                     sent := [.connect, .disconnect] }) := by
  decide

/-- C13 (amended): not-connected rejection. On a client whose state is not
connected, `Publish`, `Subscribe` and `Unsubscribe` each return the
not-connected error, return no future, and leave the client unchanged; on a
client in the initial state, `Disconnect` and `Close` return the not-connected
error and leave the client unchanged. -/
theorem not_connected_rejected (c : Client) (topic payload : List Byte) (qos : Nat)
    (retain : Bool) (subs : List (List Byte × Nat)) (topics : List (List Byte))
    (h : c.state ≠ .connected) :
    c.Publish topic payload qos retain = ⟨none, some .notConnected, c⟩
    ∧ c.Subscribe subs = ⟨none, some .notConnected, c⟩
    ∧ c.Unsubscribe topics = ⟨none, some .notConnected, c⟩
    ∧ (c.state = .initial →
        c.Disconnect = (some .notConnected, c) ∧ c.Close = (some .notConnected, c)) := by
  refine ⟨?_, ?_, ?_, ?_⟩
  · simp [Client.Publish, h]
  · simp [Client.Subscribe, h]
  · simp [Client.Unsubscribe, h]
  · intro hi
    simp [Client.Disconnect, Client.Close, hi]

/-- The calls of `TestClientNotConnected` on a freshly created client. -/
theorem not_connected_rejected_witness :
    Client.New.state ≠ .connected
    ∧ Client.New.state = .initial
    ∧ Client.New.Publish [116, 101, 115, 116] [116, 101, 115, 116] 0 false
        = ⟨none, some .notConnected, Client.New⟩
    ∧ Client.New.Subscribe [([116, 101, 115, 116], 0)] = ⟨none, some .notConnected, Client.New⟩
    ∧ Client.New.Unsubscribe [[116, 101, 115, 116]] = ⟨none, some .notConnected, Client.New⟩
    ∧ Client.New.Disconnect = (some .notConnected, Client.New)
    ∧ Client.New.Close = (some .notConnected, Client.New) :=
  have h := not_connected_rejected Client.New [116, 101, 115, 116] [116, 101, 115, 116] 0
    false [([116, 101, 115, 116], 0)] [[116, 101, 115, 116]] (by decide)
  ⟨by decide, by decide, h.1, h.2.1, h.2.2.1, (h.2.2.2 (by decide)).1,
    (h.2.2.2 (by decide)).2⟩

/-- C14: `Connect` is rejected unless the client is in the initial or
disconnected state. For every client state among connecting, connected and
disconnecting, `Connect` returns the already-connecting error and no future,
and leaves the client unchanged. -/
theorem connect_rejected (c : Client) (opts : Options)
    (h : c.state = .connecting ∨ c.state = .connected ∨ c.state = .disconnecting) :
    c.Connect opts = ⟨none, some .alreadyConnecting, c⟩ := by
  rcases h with h | h | h <;> simp [Client.Connect, h]

/-- The second `Connect` of `TestClientConnectAfterConnect`: a client that
connected and received an accepting CONNACK. -/
theorem connect_rejected_witness :
    ((Client.processConnack (Client.New.Connect ⟨[], true, true⟩).client false 0).2.state
        = .connected)
    ∧ (Client.processConnack (Client.New.Connect ⟨[], true, true⟩).client false 0).2.Connect
          ⟨[], true, true⟩
        = ⟨none, some .alreadyConnecting,
            (Client.processConnack (Client.New.Connect ⟨[], true, true⟩).client false 0).2⟩ :=
  ⟨by decide,
    connect_rejected
      (Client.processConnack (Client.New.Connect ⟨[], true, true⟩).client false 0).2
      ⟨[], true, true⟩ (Or.inr (Or.inl (by decide)))⟩

/-- Deleting the entry of an ID that has none leaves a direction of the
session store as it is. -/
theorem filter_of_lookup_none (l : List (Nat × Packet)) (id : Nat)
    (h : l.lookup id = none) : l.filter (fun e => e.1 ≠ id) = l := by
  induction l with
  | nil => rfl
  | cons e es ih =>
    obtain ⟨a, b⟩ := e
    rw [List.lookup_cons] at h
    by_cases hid : id = a
    · simp [hid] at h
    · have hb : (id == a) = false := by simpa using hid
      rw [hb] at h
      have hne : a ≠ id := fun hc => hid hc.symm
      rw [List.filter_cons_of_pos (by simpa using hne), ih h]

/-- C15, as stated, fails: on a client whose outgoing store holds a SUBSCRIBE
under packet ID 1 (a store filled before the session, as in
`TestClientSessionResumption`) and whose registry holds no future, with the
state set to connecting as in `TestClientInvalidPackets`, a SUBACK or an
UNSUBACK for ID 1 finds no pending future, returns no error, and deletes the
stored packet, as the rows of the dispatch table say. -/
theorem unmatched_ignored_counterexample :
    1 ∉ ({ Client.New with
            state := .connecting,
            outgoing := [(1, .subscribe 1 [([116, 101, 115, 116], 0)])] } : Client).futures
    ∧ Client.processSuback
          { Client.New with
            state := .connecting,
            outgoing := [(1, .subscribe 1 [([116, 101, 115, 116], 0)])] } 1 [0]
        = (none, { Client.New with state := .connecting, outgoing := [] })
    ∧ Client.processUnsuback
          { Client.New with
            state := .connecting,
            outgoing := [(1, .subscribe 1 [([116, 101, 115, 116], 0)])] } 1
        = (none, { Client.New with state := .connecting, outgoing := [] })
    ∧ Client.processSuback
          { Client.New with
            state := .connecting,
            outgoing := [(1, .subscribe 1 [([116, 101, 115, 116], 0)])] } 1 [0]
        ≠ (none, { Client.New with
                     state := .connecting,
                     outgoing := [(1, .subscribe 1 [([116, 101, 115, 116], 0)])] }) := by
  decide

/-- C15 (amended): unmatched inbound packets are ignored. Processing a CONNACK
while the state is not connecting, a PUBREL whose packet ID has no stored
packet, a PUBACK or PUBCOMP whose packet ID has no pending future, or a SUBACK
or UNSUBACK whose packet ID has neither a pending future nor a stored outgoing
packet, returns no error and leaves the client, with its state, future
registry and session store, unchanged. A SUBACK or UNSUBACK whose packet ID
has no pending future returns no error and changes nothing but the outgoing
store, where the entry of that ID is deleted. -/
theorem unmatched_ignored (c : Client) (id : Nat) (sessionPresent : Bool)
    (returnCode : Nat) (granted : List Nat) :
    (c.state ≠ .connecting → c.processConnack sessionPresent returnCode = (none, c))
    ∧ (id ∉ c.futures → c.outgoing.lookup id = none →
        c.processSuback id granted = (none, c))
    ∧ (id ∉ c.futures → c.outgoing.lookup id = none → c.processUnsuback id = (none, c))
    ∧ (id ∉ c.futures → c.processPubackAndPubcomp id = (none, c))
    ∧ (c.incoming.lookup id = none → c.processPubrel id = (none, c))
    ∧ (id ∉ c.futures →
        c.processSuback id granted
            = (none, { c with outgoing := c.outgoing.filter (fun e => e.1 ≠ id) })
        ∧ c.processUnsuback id
            = (none, { c with outgoing := c.outgoing.filter (fun e => e.1 ≠ id) })) := by
  refine ⟨?_, ?_, ?_, ?_, ?_, ?_⟩
  · intro h
    simp [Client.processConnack, h]
  · intro h hs
    have hc : c.futures.contains id = false := by simpa using h
    simp only [Client.processSuback, hc, Bool.false_eq_true, if_false,
      filter_of_lookup_none c.outgoing id hs]
  · intro h hs
    have hc : c.futures.contains id = false := by simpa using h
    simp only [Client.processUnsuback, hc, Bool.false_eq_true, if_false,
      filter_of_lookup_none c.outgoing id hs]
  · intro h
    simp [Client.processPubackAndPubcomp, h]
  · intro h
    simp [Client.processPubrel, h]
  · intro h
    constructor
    · simp [Client.processSuback, h]
    · simp [Client.processUnsuback, h]

/-- The calls of `TestClientInvalidPackets`: a CONNACK on a new client, then,
with the state set to connecting, a SUBACK, an UNSUBACK, a PUBREL and a PUBACK
with packet ID 0. -/
theorem unmatched_ignored_witness :
    Client.New.processConnack false 0 = (none, Client.New)
    ∧ Client.processSuback { Client.New with state := .connecting } 0 []
        = (none, { Client.New with state := .connecting })
    ∧ Client.processUnsuback { Client.New with state := .connecting } 0
        = (none, { Client.New with state := .connecting })
    ∧ Client.processPubackAndPubcomp { Client.New with state := .connecting } 0
        = (none, { Client.New with state := .connecting })
    ∧ Client.processPubrel { Client.New with state := .connecting } 0
        = (none, { Client.New with state := .connecting }) :=
  ⟨(unmatched_ignored Client.New 0 false 0 []).1 (by decide),
    (unmatched_ignored { Client.New with state := .connecting } 0 false 0 []).2.1 (by decide)
      (by decide),
    (unmatched_ignored { Client.New with state := .connecting } 0 false 0 []).2.2.1 (by decide)
      (by decide),
    (unmatched_ignored { Client.New with state := .connecting } 0 false 0 []).2.2.2.1
      (by decide),
    (unmatched_ignored { Client.New with state := .connecting } 0 false 0 []).2.2.2.2.1
      (by decide)⟩

/-- C16: keepalive tracker, with time as an explicit parameter. For a tracker
of duration `d > 0` built at time `t0`, the window at time `t` is
`d - (t - lastSent)`; it is positive right after construction and right after
a reset, and at most 0 once `d` has elapsed since then; a new tracker is not
pending, `ping()` makes it pending, and `pong()` clears pending and resets
`lastSent`. -/
theorem tracker_window (d t0 t1 t : Int) (tr : Tracker) (hd : 0 < d) :
    (newTracker d t0).window t = d - (t - (newTracker d t0).lastSent)
    ∧ tr.window t = tr.duration - (t - tr.lastSent)
    ∧ 0 < (newTracker d t0).window t0
    ∧ (t0 + d ≤ t → (newTracker d t0).window t ≤ 0)
    ∧ 0 < ((newTracker d t0).reset t1).window t1
    ∧ (t1 + d ≤ t → ((newTracker d t0).reset t1).window t ≤ 0)
    ∧ (newTracker d t0).pending = false
    ∧ tr.ping.pending = true
    ∧ (tr.pong t1).pending = false
    ∧ (tr.pong t1).lastSent = t1 := by
  refine ⟨rfl, rfl, ?_, ?_, ?_, ?_, rfl, rfl, rfl, rfl⟩
  · simp only [newTracker, Tracker.window]
    omega
  · intro h
    simp only [newTracker, Tracker.window]
    omega
  · simp only [newTracker, Tracker.window, Tracker.reset]
    omega
  · intro h
    simp only [newTracker, Tracker.window, Tracker.reset]
    omega

/-- The steps of `TestTracker` with a duration of 10 units: built at time 0,
read at time 0 and at time 10, reset at time 10, then ping and pong. -/
theorem tracker_window_witness :
    (0 : Int) < 10
    ∧ 0 < (newTracker 10 0).window 0
    ∧ (newTracker 10 0).window 10 ≤ 0
    ∧ 0 < ((newTracker 10 0).reset 10).window 10
    ∧ (newTracker 10 0).pending = false
    ∧ ((newTracker 10 0).reset 10).ping.pending = true
    ∧ (((newTracker 10 0).reset 10).ping.pong 10).pending = false :=
  have h := tracker_window 10 0 10 10 ((newTracker 10 0).reset 10).ping (by decide)
  ⟨by decide, h.2.2.1, h.2.2.2.1 (by decide), h.2.2.2.2.1, h.2.2.2.2.2.2.1, h.2.2.2.2.2.2.2.1,
    h.2.2.2.2.2.2.2.2.1⟩

/-! ## SUBSCRIBE: further claims -/

theorem foldl_msglen_sum (subs : List Subscription) (acc : Nat) :
    subs.foldl (fun total t => total + (2 + t.Topic.length + 1)) acc
      = acc + (subs.map (fun t => t.Topic.length + 3)).sum := by
  induction subs generalizing acc with
  | nil => simp
  | cons t ts ih =>
    simp only [List.foldl_cons, ih, List.map_cons, List.sum_cons]
    omega

/-- C17: SUBSCRIBE length formula. For every message, `msglen()` is 2 plus the
sum over its subscriptions of `len(Topic) + 3`, and `Len()` is `msglen()` plus
the fixed-header length for that remaining length, which is 1 type byte plus
the 1 to 4 bytes of the remaining-length field; a single subscription with a
4-byte topic gives `msglen()` 9 and `Len()` 11. -/
theorem msglen_formula (m : SubscribeMessage) :
    m.msglen = 2 + (m.Subscriptions.map (fun t => t.Topic.length + 3)).sum
    ∧ m.Len = m.msglen + m.toheader.len m.msglen
    ∧ m.toheader.len m.msglen = 1 + (remLenBytes m.msglen).length
    ∧ 1 ≤ (remLenBytes m.msglen).length ∧ (remLenBytes m.msglen).length ≤ 4
    ∧ (∀ s, m.Subscriptions = [s] → s.Topic.length = 4 → m.msglen = 9 ∧ m.Len = 11) := by
  have hsum : m.msglen = 2 + (m.Subscriptions.map (fun t => t.Topic.length + 3)).sum := by
    simp [SubscribeMessage.msglen, foldl_msglen_sum]
  have hrl := remLenBytes_length m.msglen
  have hlen : m.Len = m.toheader.len m.msglen + m.msglen := rfl
  have hhl : m.toheader.len m.msglen = headerLen m.msglen := rfl
  refine ⟨hsum, by omega, by omega, ?_, ?_, ?_⟩
  · have := headerLen_pos m.msglen
    omega
  · have : headerLen m.msglen ≤ 5 := by
      unfold headerLen
      split_ifs <;> omega
    omega
  · intro s hs h4
    have h9 : m.msglen = 9 := by
      rw [hsum, hs]
      simp [h4]
    refine ⟨h9, ?_⟩
    rw [hlen, hhl, h9]
    rfl

/-- C18, as stated, fails: `Encode` of a SUBSCRIBE message with an empty
subscription list succeeds and produces the 4 bytes `0x82, 2, 0, 1`, which
`Decode` on a fresh message rejects as an empty subscription list. -/
theorem Encode_then_Decode_counterexample :
    (subscribeOf 1 []).Encode (List.replicate 4 0) = .ret 4 none [0x82, 2, 0, 1]
    ∧ NewSubscribeMessage.Decode [0x82, 2, 0, 1]
        = .ret 0 (some .malformed) (subscribeOf 1 []) := by
  decide

/-- C18 (amended): `Encode` never produces bytes its own decoder rejects when
the list is not empty. For every SUBSCRIBE message with a non-empty
subscription list for which `Encode` succeeds, `Decode` of the produced bytes
(the first `n` bytes of the buffer, `n` the returned count) on a fresh message
succeeds, with the same count and the same packet ID and subscriptions. -/
theorem Encode_then_Decode (pid : Fin 65536) (subs : List Subscription) (dst : List Byte)
    (n : Nat) (out : List Byte) (hne : subs ≠ [])
    (h : (subscribeOf pid subs).Encode dst = .ret n none out) :
    NewSubscribeMessage.Decode (out.take n) = .ret n none (subscribeOf pid subs) := by
  obtain ⟨hlen, hmax, htop⟩ := Encode_inv _ dst n out h
  rw [Encode_ok _ dst hlen hmax htop] at h
  injection h with h1 _ h3
  subst h1 h3
  have hL : (subscribeOf pid subs).Len
      = (headerWire (subscribeOf pid subs).Typ (subscribeOf pid subs).msglen
          ++ payloadWire (subscribeOf pid subs)).length := by
    rw [List.length_append, headerWire_length, payloadWire_length]; rfl
  have htake : List.take (subscribeOf pid subs).Len
      (headerWire (subscribeOf pid subs).Typ (subscribeOf pid subs).msglen
        ++ payloadWire (subscribeOf pid subs) ++ List.drop (subscribeOf pid subs).Len dst)
      = headerWire (subscribeOf pid subs).Typ (subscribeOf pid subs).msglen
        ++ payloadWire (subscribeOf pid subs) ++ [] := by
    rw [List.append_nil]
    exact List.take_left' hL.symm
  rw [htake, Decode_wire NewSubscribeMessage (subscribeOf pid subs) [] rfl hmax htop
    (by simpa [NewSubscribeMessage, subscribeOf] using hne)]
  rfl

/-- The amended C18 at packet ID 7 with the single subscription "abcd" at QoS 1
and a buffer of 13 bytes. -/
theorem Encode_then_Decode_witness :
    ([⟨[97, 98, 99, 100], 1⟩] : List Subscription) ≠ []
    ∧ (subscribeOf 7 [⟨[97, 98, 99, 100], 1⟩]).Encode (List.replicate 13 9)
        = .ret 11 none [130, 9, 0, 7, 0, 4, 97, 98, 99, 100, 1, 9, 9]
    ∧ NewSubscribeMessage.Decode
          (([130, 9, 0, 7, 0, 4, 97, 98, 99, 100, 1, 9, 9] : List Byte).take 11)
        = .ret 11 none (subscribeOf 7 [⟨[97, 98, 99, 100], 1⟩]) :=
  ⟨by decide, by decide,
    Encode_then_Decode 7 [⟨[97, 98, 99, 100], 1⟩] (List.replicate 13 9) 11
      [130, 9, 0, 7, 0, 4, 97, 98, 99, 100, 1, 9, 9] (by decide) (by decide)⟩

/-- C19, evaluated at a failing input: the header declares remaining length 3
(a packet of 2 + 3 = 5 bytes), the topic entry that starts inside the packet
runs past its declared end, and `Decode` succeeds with byte count 8. -/
theorem Decode_reads_past_declared_end :
    NewSubscribeMessage.toheader.decode [0x82, 3, 0, 1, 0, 1, 97, 0] = (2, 2, 3, none)
    ∧ NewSubscribeMessage.Decode [0x82, 3, 0, 1, 0, 1, 97, 0]
        = .ret 8 none (subscribeOf 1 [⟨[97], 0⟩]) := by
  decide

/-- `Decode` on a buffer that starts with a zero byte fails in the header. -/
theorem Decode_zero_head (tl : List Byte) :
    NewSubscribeMessage.Decode ((0 : Byte) :: tl)
      = .ret 1 (some .malformed) NewSubscribeMessage := by
  simp [SubscribeMessage.Decode, header.decode, headerDecode, NewSubscribeMessage,
    MessageType.code]

theorem Decode_zero_buffer (k : Nat) (x : List Byte) (hk : 0 < k) :
    NewSubscribeMessage.Decode (List.replicate k (0 : Byte) ++ x)
      = .ret 1 (some .malformed) NewSubscribeMessage := by
  obtain ⟨j, rfl⟩ : ∃ j, k = j + 1 := ⟨k - 1, by omega⟩
  rw [List.replicate_succ, List.cons_append]
  exact Decode_zero_head _

/-- C20, as stated, fails: a message of 4097 subscriptions whose topics are
65535 bytes each is valid in the sense of the claim, yet `Encode` into a
zeroed buffer of `Len()` bytes returns an error and writes nothing, so there
are no encoded bytes, and `Decode` of the buffer followed by a trailing byte
fails. -/
theorem subscribe_trailing_counterexample :
    (List.replicate 4097 (Subscription.mk (List.replicate 65535 (0 : Byte)) 0)) ≠ []
    ∧ (∀ t ∈ List.replicate 4097 (Subscription.mk (List.replicate 65535 (0 : Byte)) 0),
        t.Topic.length ≤ 65535)
    ∧ (subscribeOf 1
          (List.replicate 4097 (Subscription.mk (List.replicate 65535 (0 : Byte)) 0))).Encode
        (List.replicate
          (subscribeOf 1
            (List.replicate 4097
              (Subscription.mk (List.replicate 65535 (0 : Byte)) 0))).Len 0)
      = .ret 0 (some .malformed)
          (List.replicate
            (subscribeOf 1
              (List.replicate 4097
                (Subscription.mk (List.replicate 65535 (0 : Byte)) 0))).Len 0)
    ∧ NewSubscribeMessage.Decode
        (List.replicate
          (subscribeOf 1
            (List.replicate 4097
              (Subscription.mk (List.replicate 65535 (0 : Byte)) 0))).Len 0 ++ [0xff])
      = .ret 1 (some .malformed) NewSubscribeMessage := by
  have hml : (subscribeOf 1
      (List.replicate 4097 (Subscription.mk (List.replicate 65535 (0 : Byte)) 0))).msglen
      = 268509188 := by
    rw [msglen_replicate]
  refine ⟨?_, ?_, ?_, ?_⟩
  · intro h
    have h0 := congrArg List.length h
    rw [List.length_replicate, List.length_nil] at h0
    exact absurd h0 (by decide)
  · exact replicate_topics_le 4097 65535 0
  · apply Encode_over_max
    · rw [List.length_replicate]
    · rw [hml]
      decide
  · apply Decode_zero_buffer
    rw [Len_eq]
    have := headerLen_pos (subscribeOf 1
      (List.replicate 4097 (Subscription.mk (List.replicate 65535 (0 : Byte)) 0))).msglen
    omega

/-- C20 (amended): SUBSCRIBE `Decode` ignores trailing bytes. For every
SUBSCRIBE message `P` with a non-empty list, topics of at most 65535 bytes and
remaining length `msglen()` at most 268,435,455, and every byte sequence `x`,
`Encode` into a buffer of `Len()` bytes succeeds, and `Decode` of the encoded
bytes followed by `x` on a fresh message succeeds, returns byte count `Len()`
and yields the same packet ID and subscriptions as `Decode` of the encoded
bytes alone. -/
theorem subscribe_trailing (pid : Fin 65536) (subs : List Subscription)
    (dst x : List Byte)
    (hne : subs ≠ [])
    (htop : ∀ t ∈ subs, t.Topic.length ≤ 65535)
    (hmax : (subscribeOf pid subs).msglen ≤ maxRemainingLength)
    (hdst : dst.length = (subscribeOf pid subs).Len) :
    ∃ out, (subscribeOf pid subs).Encode dst = .ret (subscribeOf pid subs).Len none out
      ∧ NewSubscribeMessage.Decode (out ++ x)
          = .ret (subscribeOf pid subs).Len none (subscribeOf pid subs)
      ∧ NewSubscribeMessage.Decode (out ++ x) = NewSubscribeMessage.Decode out := by
  have hdrop : dst.drop (subscribeOf pid subs).Len = [] := by
    rw [← hdst]; exact List.drop_length dst
  have hne2 : NewSubscribeMessage.Subscriptions ++ (subscribeOf pid subs).Subscriptions ≠ [] := by
    simpa [NewSubscribeMessage, subscribeOf] using hne
  have h1 := Decode_wire NewSubscribeMessage (subscribeOf pid subs) [] rfl hmax htop hne2
  have h2 := Decode_wire NewSubscribeMessage (subscribeOf pid subs) x rfl hmax htop hne2
  refine ⟨_, Encode_ok (subscribeOf pid subs) dst (le_of_eq hdst.symm) hmax htop, ?_, ?_⟩
  · rw [hdrop, List.append_nil, h2]
    rfl
  · rw [hdrop, List.append_nil, h2]
    rw [List.append_nil] at h1
    rw [h1]

/-- The amended C20 at packet ID 7 with the single subscription "abcd" at QoS
1, a buffer of 11 bytes and the trailing bytes 1, 2, 3. -/
theorem subscribe_trailing_witness :
    ([⟨[97, 98, 99, 100], 1⟩] : List Subscription) ≠ []
    ∧ (∀ t ∈ ([⟨[97, 98, 99, 100], 1⟩] : List Subscription), t.Topic.length ≤ 65535)
    ∧ (subscribeOf 7 [⟨[97, 98, 99, 100], 1⟩]).msglen ≤ maxRemainingLength
    ∧ (List.replicate 11 (0 : Byte)).length = (subscribeOf 7 [⟨[97, 98, 99, 100], 1⟩]).Len
    ∧ ∃ out, (subscribeOf 7 [⟨[97, 98, 99, 100], 1⟩]).Encode (List.replicate 11 0)
        = .ret (subscribeOf 7 [⟨[97, 98, 99, 100], 1⟩]).Len none out
      ∧ NewSubscribeMessage.Decode (out ++ [1, 2, 3])
          = .ret (subscribeOf 7 [⟨[97, 98, 99, 100], 1⟩]).Len none
              (subscribeOf 7 [⟨[97, 98, 99, 100], 1⟩])
      ∧ NewSubscribeMessage.Decode (out ++ [1, 2, 3]) = NewSubscribeMessage.Decode out :=
  ⟨by decide, by decide, by decide, by decide,
    subscribe_trailing 7 [⟨[97, 98, 99, 100], 1⟩] (List.replicate 11 0) [1, 2, 3]
      (by decide) (by decide) (by decide) (by decide)⟩

/-! ## SUBSCRIBE: the loop of `Decode` -/

/-- The loop of `Decode` runs the body `decodeStep` while `remlen` is
positive. -/
theorem decodeLoop_succ (fuel : Nat) (src : List Byte) (m : SubscribeMessage) (total : Nat)
    (remlen : Int) (hpos : 0 < remlen) :
    decodeLoop (fuel + 1) src m total remlen
      = match decodeStep src m total remlen with
        | .done r => r
        | .next m1 total1 remlen1 => decodeLoop fuel src m1 total1 remlen1 := by
  rw [decodeLoop]
  simp only [hpos, gt_iff_lt, if_true, decodeStep]
  split_ifs with h1 h2
  · rfl
  · rfl
  · cases src[total + (readLPBytes (src.drop total)).2.1]? <;> rfl

/-- The loop of `Decode` with `remlen` at most 0 goes straight to the check of
the list. -/
theorem decodeLoop_done (fuel : Nat) (src : List Byte) (m : SubscribeMessage) (total : Nat)
    (remlen : Int) (hle : ¬ 0 < remlen) :
    decodeLoop fuel src m total remlen
      = if m.Subscriptions.length = 0 then .ret 0 (some .malformed) m
        else .ret total none m := by
  rw [decodeLoop.eq_def]
  simp only [gt_iff_lt, hle, if_false]

/-- A pass that goes on has read a whole entry: `remlen` went down by at
least 3, the position went up by as much, and the entry was appended. -/
theorem decodeStep_next (src : List Byte) (m : SubscribeMessage) (total : Nat) (remlen : Int)
    (m1 : SubscribeMessage) (total1 : Nat) (remlen1 : Int)
    (h : decodeStep src m total remlen = .next m1 total1 remlen1) :
    ∃ t n q, readLPBytes (src.drop total) = (t, n, none) ∧ 2 ≤ n
      ∧ (src.drop total)[n]? = some q
      ∧ m1 = { m with Subscriptions := m.Subscriptions ++ [⟨t, q⟩] }
      ∧ total1 = total + n + 1 ∧ remlen1 = remlen - n - 1 := by
  unfold decodeStep at h
  split_ifs at h with h1
  have hcount := readLPBytes_count (src.drop total)
  rcases hr : readLPBytes (src.drop total) with ⟨t, n, err⟩
  rw [hr] at h hcount
  simp only at h hcount
  split_ifs at h with h2
  cases err with
  | some e => simp at h2
  | none =>
    cases hq : src[total + n]? with
    | none => simp [hq] at h
    | some q =>
      simp only [hq, Step.next.injEq] at h
      obtain ⟨hm, ht, hrem⟩ := h
      refine ⟨t, n, q, rfl, hcount rfl, ?_, hm.symm, ht.symm, hrem.symm⟩
      rw [List.getElem?_drop]
      exact hq

/-- A pass that returns never returns without error. -/
theorem decodeStep_done (src : List Byte) (m : SubscribeMessage) (total : Nat) (remlen : Int)
    (r : Res SubscribeMessage) (n : Nat) (m1 : SubscribeMessage)
    (h : decodeStep src m total remlen = .done r) : r ≠ .ret n none m1 := by
  unfold decodeStep at h
  split_ifs at h with h1
  · injection h with h
    rw [← h]
    exact fun h => Res.noConfusion h
  · rcases hr : readLPBytes (src.drop total) with ⟨t, k, err⟩
    rw [hr] at h
    simp only at h
    split_ifs at h with h2
    · injection h with h
      rw [← h]
      intro hc
      injection hc with _ he _
      rw [he] at h2
      simp at h2
    · cases hq : src[total + k]? with
      | none =>
        simp only [hq] at h
        injection h with h
        rw [← h]
        exact fun h => Res.noConfusion h
      | some q => simp [hq] at h

/-- A pass over a whole entry goes on, whatever the message. -/
theorem decodeStep_of (src : List Byte) (m : SubscribeMessage) (total : Nat) (remlen : Int)
    (t : List Byte) (n : Nat) (q : Byte)
    (hread : readLPBytes (src.drop total) = (t, n, none))
    (hq : (src.drop total)[n]? = some q) :
    decodeStep src m total remlen
      = .next { m with Subscriptions := m.Subscriptions ++ [⟨t, q⟩] } (total + n + 1)
          (remlen - n - 1) := by
  rw [List.getElem?_drop] at hq
  have hlt : total + n < src.length := by
    rcases Nat.lt_or_ge (total + n) src.length with h | h
    · exact h
    · rw [List.getElem?_eq_none h] at hq
      exact Option.noConfusion hq
  have h1 : ¬ (total > src.length) := by omega
  unfold decodeStep
  simp [h1, hread, hq]

theorem entriesFrom_done (fuel : Nat) (bytes : List Byte) (remlen : Int)
    (hle : ¬ 0 < remlen) : entriesFrom fuel bytes remlen = [] := by
  cases fuel with
  | zero => rfl
  | succ f => simp [entriesFrom, hle]

/-- The loop of `Decode` with `remlen` at most 0 returns without error only
when the list is not empty, and then returns the position and the message as
they are. -/
theorem decodeLoop_done_ok (fuel : Nat) (src : List Byte) (m : SubscribeMessage)
    (total : Nat) (remlen : Int) (n : Nat) (m1 : SubscribeMessage) (hle : ¬ 0 < remlen)
    (h : decodeLoop fuel src m total remlen = .ret n none m1) :
    n = total ∧ m1 = m ∧ m.Subscriptions ≠ [] := by
  rw [decodeLoop_done fuel src m total remlen hle] at h
  by_cases h0 : m.Subscriptions.length = 0
  · rw [if_pos h0] at h
    injection h with _ he _
    exact Option.noConfusion he
  · rw [if_neg h0] at h
    injection h with hn _ hm
    exact ⟨hn.symm, hm.symm, fun hc => h0 (by rw [hc]; rfl)⟩

/-- The loop of `Decode`, when it returns without error, has appended to the
list of the message exactly the entries of the input, the list is not empty,
and the same run on any other message appends the same entries. -/
theorem decodeLoop_entries (src : List Byte) (fuel : Nat) (m : SubscribeMessage)
    (total : Nat) (remlen : Int) (n : Nat) (m1 : SubscribeMessage)
    (h : decodeLoop fuel src m total remlen = .ret n none m1) :
    m1 = { m with Subscriptions := m.Subscriptions ++ entriesFrom fuel (src.drop total) remlen }
    ∧ m1.Subscriptions ≠ []
    ∧ ∀ m2 : SubscribeMessage,
        m2.Subscriptions ++ entriesFrom fuel (src.drop total) remlen ≠ [] →
        decodeLoop fuel src m2 total remlen
          = .ret n none
              { m2 with Subscriptions :=
                  m2.Subscriptions ++ entriesFrom fuel (src.drop total) remlen } := by
  induction fuel generalizing m total remlen with
  | zero =>
    by_cases hpos : 0 < remlen
    · rw [decodeLoop.eq_def] at h
      simp [hpos] at h
    · obtain ⟨hn, hm, hne0⟩ := decodeLoop_done_ok 0 src m total remlen n m1 hpos h
      subst hm
      rw [hn]
      refine ⟨by simp [entriesFrom], hne0, ?_⟩
      intro m2 hne
      have h2 : ¬ (m2.Subscriptions.length = 0) := by
        intro hc
        apply hne
        simp [entriesFrom, List.length_eq_zero.mp hc]
      rw [decodeLoop_done 0 src m2 total remlen hpos, if_neg h2]
      simp [entriesFrom]
  | succ f ih =>
    by_cases hpos : 0 < remlen
    · rw [decodeLoop_succ f src m total remlen hpos] at h
      cases hs : decodeStep src m total remlen with
      | done r =>
        rw [hs] at h
        exact absurd h (decodeStep_done src m total remlen r n m1 hs)
      | next ma ta ra =>
        rw [hs] at h
        obtain ⟨t, k, q, hread, _, hq, hma, hta, hra⟩ :=
          decodeStep_next src m total remlen ma ta ra hs
        obtain ⟨e1, e2, e3⟩ := ih ma ta ra h
        have hent : entriesFrom (f + 1) (src.drop total) remlen
            = ⟨t, q⟩ :: entriesFrom f (src.drop ta) ra := by
          have hd : List.drop (k + 1) (List.drop total src) = List.drop ta src := by
            rw [List.drop_drop, hta, Nat.add_assoc]
          simp only [entriesFrom, hpos, gt_iff_lt, if_true, hread, hq, hd, hra]
        refine ⟨?_, e2, ?_⟩
        · rw [e1, hma, hent]
          simp
        · intro m2 hne
          rw [hent] at hne ⊢
          rw [decodeLoop_succ f src m2 total remlen hpos,
            decodeStep_of src m2 total remlen t k q hread hq]
          simp only
          rw [← hta, ← hra, e3 _ (by simp)]
          simp
    · have hnil := entriesFrom_done (f + 1) (src.drop total) remlen hpos
      obtain ⟨hn, hm, hne0⟩ := decodeLoop_done_ok (f + 1) src m total remlen n m1 hpos h
      subst hm
      rw [hn]
      refine ⟨by simp [hnil], hne0, ?_⟩
      intro m2 hne
      have h2 : ¬ (m2.Subscriptions.length = 0) := by
        intro hc
        apply hne
        simp [hnil, List.length_eq_zero.mp hc]
      rw [decodeLoop_done (f + 1) src m2 total remlen hpos, if_neg h2, hnil]
      simp

/-- The number of passes of the loop of `Decode` is at most a third of
`remlen`, rounded up, whatever the bound `fuel`. -/
theorem decodeIters_le (src : List Byte) (fuel : Nat) (m : SubscribeMessage) (total : Nat)
    (remlen : Int) : decodeIters fuel src m total remlen * 3 ≤ remlen.toNat + 2 := by
  induction fuel generalizing m total remlen with
  | zero =>
    by_cases hpos : 0 < remlen <;> simp [decodeIters, hpos]
  | succ f ih =>
    rw [decodeIters]
    split_ifs with hpos
    · cases hs : decodeStep src m total remlen with
      | done r =>
        simp only
        omega
      | next ma ta ra =>
        simp only
        obtain ⟨t, k, q, _, hk, _, _, _, hra⟩ := decodeStep_next src m total remlen ma ta ra hs
        have := ih ma ta ra
        omega
    · simp

/-- The loop of `Decode` returns within a third of `remlen`, rounded up,
passes: a bound that large is never used up. -/
theorem decodeLoop_fuel_ceil (src : List Byte) (fuel : Nat) (m : SubscribeMessage)
    (total : Nat) (remlen : Int) (hfuel : (remlen.toNat + 2) / 3 ≤ fuel) :
    decodeLoop fuel src m total remlen ≠ .outOfFuel := by
  induction fuel generalizing m total remlen with
  | zero =>
    have hpos : ¬ 0 < remlen := by omega
    rw [decodeLoop_done 0 src m total remlen hpos]
    split_ifs <;> exact fun h => Res.noConfusion h
  | succ f ih =>
    by_cases hpos : 0 < remlen
    · rw [decodeLoop_succ f src m total remlen hpos]
      cases hs : decodeStep src m total remlen with
      | done r =>
        simp only
        unfold decodeStep at hs
        split_ifs at hs with h1
        · injection hs with hs
          rw [← hs]
          exact fun h => Res.noConfusion h
        · rcases hr : readLPBytes (src.drop total) with ⟨t, k, err⟩
          rw [hr] at hs
          simp only at hs
          split_ifs at hs with h2
          · injection hs with hs
            rw [← hs]
            exact fun h => Res.noConfusion h
          · cases hq : src[total + k]? with
            | none =>
              simp only [hq] at hs
              injection hs with hs
              rw [← hs]
              exact fun h => Res.noConfusion h
            | some q => simp [hq] at hs
      | next ma ta ra =>
        simp only
        obtain ⟨t, k, q, _, hk, _, _, _, hra⟩ := decodeStep_next src m total remlen ma ta ra hs
        apply ih
        omega
    · rw [decodeLoop_done (f + 1) src m total remlen hpos]
      split_ifs <;> exact fun h => Res.noConfusion h

/-! ## SUBSCRIBE: the last claims -/

/-- C21: SUBSCRIBE `Decode` appends rather than replaces. For every message
`m` with prior subscriptions `L` and every input on which `Decode` succeeds,
the resulting subscriptions are `L` followed by the entries of the input in
wire order, and decoding the same input once more into the result succeeds
and yields each entry twice. -/
theorem Decode_appends (m : SubscribeMessage) (src : List Byte) (n : Nat)
    (m1 : SubscribeMessage) (h : m.Decode src = .ret n none m1) :
    m1.Subscriptions = m.Subscriptions ++ wireEntries m.Typ src
    ∧ m1.Decode src
        = .ret n none
            { m1 with Subscriptions :=
                m.Subscriptions ++ wireEntries m.Typ src ++ wireEntries m.Typ src } := by
  simp only [SubscribeMessage.Decode, List.drop_zero, header.decode, Nat.zero_add] at h
  rcases hd : headerDecode src m.Typ with ⟨hl, fl, rl, err⟩
  rw [hd] at h
  simp only at h
  have hent : wireEntries m.Typ src
      = entriesFrom ((rl : Int) - 2).toNat (src.drop (hl + 2)) ((rl : Int) - 2) := by
    simp only [wireEntries, hd]
  have hrem : (rl : Int) - (((hl + 2 : Nat) : Int) - (hl : Int)) = (rl : Int) - 2 := by
    push_cast; ring
  by_cases he : err.isSome = true
  · rw [if_pos he] at h
    injection h with _ he2 _
    rw [he2] at he
    simp at he
  · rw [if_neg he] at h
    by_cases hgt : hl > src.length
    · rw [if_pos hgt] at h
      exact Res.noConfusion h
    · rw [if_neg hgt] at h
      cases hu : Uint16 (src.drop hl) with
      | none =>
        rw [hu] at h
        exact Res.noConfusion h
      | some pid =>
        rw [hu] at h
        simp only [hrem] at h
        obtain ⟨e1, e2, e3⟩ := decodeLoop_entries src _ _ _ _ n m1 h
        rw [← hent] at e1 e3
        have hsub : m1.Subscriptions = m.Subscriptions ++ wireEntries m.Typ src := by
          rw [e1]
        have hty : m1.Typ = m.Typ := by rw [e1]
        have hpid : m1.PacketId = pid := by rw [e1]
        have hd1 : headerDecode src m1.Typ = (hl, fl, rl, err) := by
          rw [hty]; exact hd
        refine ⟨hsub, ?_⟩
        simp only [SubscribeMessage.Decode, List.drop_zero, header.decode, Nat.zero_add, hd1,
          he, Bool.false_eq_true, if_false, hgt, hu, hrem]
        have hm2 : ({ m1 with PacketId := pid } : SubscribeMessage) = m1 := by
          rw [← hpid]
        rw [hm2, e3 m1 (by
          intro hc
          exact e2 (List.append_eq_nil.mp hc).1), hsub]

/-- The same 11-byte packet decoded twice into one message: the entry "abcd"
at QoS 1 is there twice. -/
theorem Decode_appends_witness :
    NewSubscribeMessage.Decode [130, 9, 0, 7, 0, 4, 97, 98, 99, 100, 1]
        = .ret 11 none (subscribeOf 7 [⟨[97, 98, 99, 100], 1⟩])
    ∧ wireEntries MessageType.SUBSCRIBE [130, 9, 0, 7, 0, 4, 97, 98, 99, 100, 1]
        = [⟨[97, 98, 99, 100], 1⟩]
    ∧ (subscribeOf 7 [⟨[97, 98, 99, 100], 1⟩]).Subscriptions
        = NewSubscribeMessage.Subscriptions
          ++ wireEntries NewSubscribeMessage.Typ [130, 9, 0, 7, 0, 4, 97, 98, 99, 100, 1]
    ∧ (subscribeOf 7 [⟨[97, 98, 99, 100], 1⟩]).Decode [130, 9, 0, 7, 0, 4, 97, 98, 99, 100, 1]
        = .ret 11 none
            { subscribeOf 7 [⟨[97, 98, 99, 100], 1⟩] with
              Subscriptions :=
                NewSubscribeMessage.Subscriptions
                  ++ wireEntries NewSubscribeMessage.Typ
                      [130, 9, 0, 7, 0, 4, 97, 98, 99, 100, 1]
                  ++ wireEntries NewSubscribeMessage.Typ
                      [130, 9, 0, 7, 0, 4, 97, 98, 99, 100, 1] } :=
  ⟨by decide, by decide,
    Decode_appends NewSubscribeMessage [130, 9, 0, 7, 0, 4, 97, 98, 99, 100, 1] 11
      (subscribeOf 7 [⟨[97, 98, 99, 100], 1⟩]) (by decide)⟩

/-- C22: SUBSCRIBE `Encode` is safe once the size check passes. For every
message whose topics are each at most 65535 bytes and every `dst` with
`len(dst) >= Len()`, `Encode` ends without a write outside `dst` (no
out-of-range fault, the buffer keeps its length, the count stays within it),
and no insufficient-buffer error of the header writer or of the topic writer
comes back: `Encode` either writes the whole packet and returns `Len()`, or
returns the header writer's error for a remaining length above 268,435,455
with nothing written. -/
theorem Encode_safe (m : SubscribeMessage) (dst : List Byte)
    (htop : ∀ t ∈ m.Subscriptions, t.Topic.length ≤ 65535)
    (hlen : m.Len ≤ dst.length) :
    m.Encode dst ≠ .outOfRange
    ∧ (m.Encode dst
          = .ret m.Len none (headerWire m.Typ m.msglen ++ payloadWire m ++ dst.drop m.Len)
        ∨ m.Encode dst = .ret 0 (some .malformed) dst)
    ∧ ∀ n e out, m.Encode dst = .ret n e out →
        e ≠ some .bufferTooSmall ∧ out.length = dst.length ∧ n ≤ dst.length := by
  by_cases hmax : m.msglen ≤ maxRemainingLength
  · have hok := Encode_ok m dst hlen hmax htop
    have hL : (headerWire m.Typ m.msglen ++ payloadWire m).length = m.Len := by
      rw [List.length_append, headerWire_length, payloadWire_length]; rfl
    refine ⟨by rw [hok]; exact fun h => Res.noConfusion h, Or.inl hok, ?_⟩
    intro n e out h
    rw [hok] at h
    injection h with h1 h2 h3
    subst h1 h2 h3
    refine ⟨fun h => Option.noConfusion h, ?_, hlen⟩
    rw [List.length_append, hL, List.length_drop]
    omega
  · have hov := Encode_over_max m dst hlen (by omega)
    refine ⟨by rw [hov]; exact fun h => Res.noConfusion h, Or.inr hov, ?_⟩
    intro n e out h
    rw [hov] at h
    injection h with h1 h2 h3
    subst h1 h2 h3
    exact ⟨by decide, rfl, Nat.zero_le _⟩

/-- The safety of `Encode` at packet ID 7 with the single subscription "abcd"
at QoS 1 and a buffer of 13 bytes. -/
theorem Encode_safe_witness :
    (∀ t ∈ (subscribeOf 7 [⟨[97, 98, 99, 100], 1⟩]).Subscriptions, t.Topic.length ≤ 65535)
    ∧ (subscribeOf 7 [⟨[97, 98, 99, 100], 1⟩]).Len ≤ (List.replicate 13 (9 : Byte)).length
    ∧ (subscribeOf 7 [⟨[97, 98, 99, 100], 1⟩]).Encode (List.replicate 13 9) ≠ .outOfRange :=
  ⟨by decide, by decide,
    (Encode_safe (subscribeOf 7 [⟨[97, 98, 99, 100], 1⟩]) (List.replicate 13 9)
      (by decide) (by decide)).1⟩

/-- C23: the subscription loop of SUBSCRIBE `Decode` terminates. Each pass
that does not return lowers `remlen` by at least 3, so for every input and
every declared remaining length `rl`, the loop, entered with
`remlen = rl - 2`, makes at most `ceil((rl - 2) / 3)` passes whatever bound it
is given, a bound that large is never used up, and `Decode` always comes back
with a result or a run-time fault. -/
theorem Decode_loop_terminates (src : List Byte) (m : SubscribeMessage) (total : Nat)
    (rl : Nat) (fuel : Nat) :
    (∀ remlen m1 total1 remlen1,
        decodeStep src m total remlen = .next m1 total1 remlen1 → remlen1 ≤ remlen - 3)
    ∧ decodeIters fuel src m total ((rl : Int) - 2) ≤ (((rl : Int) - 2).toNat + 2) / 3
    ∧ ((decodeIters fuel src m total ((rl : Int) - 2) : Int) ≤ ⌈(((rl : ℚ) - 2) / 3)⌉)
    ∧ ((((rl : Int) - 2).toNat + 2) / 3 ≤ fuel →
        decodeLoop fuel src m total ((rl : Int) - 2) ≠ .outOfFuel)
    ∧ m.Decode src ≠ .outOfFuel := by
  have hle := decodeIters_le src fuel m total ((rl : Int) - 2)
  refine ⟨?_, ?_, ?_, ?_, Decode_ne_outOfFuel m src⟩
  · intro remlen m1 total1 remlen1 h
    obtain ⟨t, k, q, _, hk, _, _, _, hra⟩ := decodeStep_next src m total remlen m1 total1 remlen1 h
    omega
  · omega
  · have hnat : 3 * decodeIters fuel src m total ((rl : Int) - 2) < rl + 1 := by omega
    have hq : (3 : ℚ) * (decodeIters fuel src m total ((rl : Int) - 2) : ℚ) < (rl : ℚ) + 1 := by
      exact_mod_cast hnat
    rw [Int.le_ceil_iff, lt_div_iff₀ (by norm_num)]
    push_cast
    linarith
  · exact decodeLoop_fuel_ceil src fuel m total ((rl : Int) - 2)

/-- The loop on the 11-byte packet with one entry: remaining length 9, one
pass, within `ceil(7 / 3) = 3`. -/
theorem Decode_loop_terminates_witness :
    decodeStep [130, 9, 0, 7, 0, 4, 97, 98, 99, 100, 1] (subscribeOf 7 []) 4 7
        = .next (subscribeOf 7 [⟨[97, 98, 99, 100], 1⟩]) 11 0
    ∧ decodeIters 100 [130, 9, 0, 7, 0, 4, 97, 98, 99, 100, 1] (subscribeOf 7 []) 4 7 = 1
    ∧ decodeIters 100 [130, 9, 0, 7, 0, 4, 97, 98, 99, 100, 1] (subscribeOf 7 []) 4
          (((9 : Nat) : Int) - 2)
        ≤ ((((9 : Nat) : Int) - 2).toNat + 2) / 3 :=
  ⟨by decide, by decide,
    (Decode_loop_terminates [130, 9, 0, 7, 0, 4, 97, 98, 99, 100, 1] (subscribeOf 7 []) 4 9
      100).2.1⟩

end Gomqtt
